import Mathlib

/-!
Verification of the Pixels-to-Actions decision engine
(`src/sima/action_schema.py`, `src/sima/memory_critic.py`,
`src/sima/temporal_buffer.py`, `src/sima/pixels_to_actions_agent.py`).

Text is modelled as `List Char`.  Python floats are modelled as exact
rationals (`ℚ`), machine integers as `Int`/`Nat`.  Code that performs I/O
(logging, the network call to the language-model service, file writes) is
modelled by explicit state passing plus an oracle argument describing the
outcome of the external call.
-/

/-- Python strings are modelled as lists of characters. -/
abbrev Str := List Char

/-- Coerce a Lean string literal to the `Str` model. -/
def chars (s : String) : Str := s.data

/-- Whitespace in the sense of Python's `str.strip`, `str.split` and the
regex class `\s` (ASCII part; the engine only ever deals with ASCII). -/
def pyWs (c : Char) : Bool :=
  c = ' ' ∨ c = '\t' ∨ c = '\n' ∨ c = '\r' ∨ c = '\x0b' ∨ c = '\x0c'

/-- Python `str.strip()`: drop leading and trailing whitespace. -/
def pyStrip (s : Str) : Str :=
  ((s.dropWhile pyWs).reverse.dropWhile pyWs).reverse

/-- Python `str.lower()` (ASCII). -/
def pyLower (s : Str) : Str := s.map Char.toLower

/-- Python `str.upper()` (ASCII). -/
def pyUpper (s : Str) : Str := s.map Char.toUpper

/-- Python `str.split()` with no argument: split on whitespace runs,
discarding empty pieces. -/
def pySplit (s : Str) : List Str :=
  (s.splitOnP pyWs).filter (fun w => ¬ w = [])

/-- Index of the first occurrence of a character, if any. -/
def idxOf? (c : Char) : Str → Option Nat
  | [] => none
  | x :: xs => if x = c then some 0 else (idxOf? c xs).map (· + 1)

/-- Index of the last occurrence of a character, if any. -/
def lastIdxOf? (c : Char) (s : Str) : Option Nat :=
  (idxOf? c s.reverse).map (fun k => s.length - 1 - k)

/-- The JSON data model (`json.loads` output).  Python dicts coming from
`json.loads` keep string keys; duplicate keys resolve to the last one. -/
inductive Json where
  | null : Json
  | bool (b : Bool) : Json
  | num (q : ℚ) : Json
  | str (s : Str) : Json
  | arr (elems : List Json) : Json
  | obj (fields : List (Str × Json)) : Json

/-- Lookup in a decoded JSON object, Python-dict style: the last binding of
a duplicated key wins (`dict` construction order in CPython). -/
def dget (fields : List (Str × Json)) (key : Str) : Option Json :=
  fields.foldl (fun acc p => if p.1 = key then some p.2 else acc) none

/-- Digit-string to natural number. -/
def digitsToNat (ds : Str) : Nat :=
  ds.foldl (fun acc c => acc * 10 + (c.toNat - '0'.toNat)) 0

/-- Value of a hexadecimal digit (0 for non-hex input). -/
def hexVal (c : Char) : Nat :=
  if '0' ≤ c ∧ c ≤ '9' then c.toNat - '0'.toNat
  else if 'a' ≤ c ∧ c ≤ 'f' then c.toNat - 'a'.toNat + 10
  else if 'A' ≤ c ∧ c ≤ 'F' then c.toNat - 'A'.toNat + 10
  else 0

/-- Parse the body of a JSON string literal (the opening quote already
consumed).  Returns the decoded characters and the rest of the input.
Supports the JSON escapes; `\uXXXX` is decoded without surrogate pairing,
which the engine never relies on. -/
def parseJsonString : Str → Option (Str × Str)
  | [] => none
  | '"' :: rest => some ([], rest)
  | '\\' :: e :: rest =>
    match e with
    | '"' => (parseJsonString rest).map (fun p => ('"' :: p.1, p.2))
    | '\\' => (parseJsonString rest).map (fun p => ('\\' :: p.1, p.2))
    | '/' => (parseJsonString rest).map (fun p => ('/' :: p.1, p.2))
    | 'b' => (parseJsonString rest).map (fun p => ('\x08' :: p.1, p.2))
    | 'f' => (parseJsonString rest).map (fun p => ('\x0c' :: p.1, p.2))
    | 'n' => (parseJsonString rest).map (fun p => ('\n' :: p.1, p.2))
    | 'r' => (parseJsonString rest).map (fun p => ('\r' :: p.1, p.2))
    | 't' => (parseJsonString rest).map (fun p => ('\t' :: p.1, p.2))
    | 'u' =>
      match rest with
      | a :: b :: c :: d :: rest' =>
        let n := ((hexVal a * 16 + hexVal b) * 16 + hexVal c) * 16 + hexVal d
        (parseJsonString rest').map (fun p => (Char.ofNat n :: p.1, p.2))
      | _ => none
    | _ => none
  | c :: rest => (parseJsonString rest).map (fun p => (c :: p.1, p.2))

/-- Parse an unsigned decimal JSON number with optional fraction and
exponent, returning its exact rational value and the rest of the input. -/
def parseJsonNumberCore (s : Str) : Option (ℚ × Str) :=
  let intDigits := s.takeWhile Char.isDigit
  let afterInt := s.dropWhile Char.isDigit
  if intDigits = [] then none else
  let ipart : ℚ := (digitsToNat intDigits : ℚ)
  let (value, afterFrac) :=
    match afterInt with
    | '.' :: t =>
      let fracDigits := t.takeWhile Char.isDigit
      let afterF := t.dropWhile Char.isDigit
      (ipart + (digitsToNat fracDigits : ℚ) / ((10 : ℚ) ^ fracDigits.length), afterF)
    | _ => (ipart, afterInt)
  match afterFrac with
  | 'e' :: t => parseJsonExponent value t
  | 'E' :: t => parseJsonExponent value t
  | _ => some (value, afterFrac)
where
  parseJsonExponent (value : ℚ) (t : Str) : Option (ℚ × Str) :=
    let (sign, t') : ℚ × Str :=
      match t with
      | '+' :: u => (1, u)
      | '-' :: u => (-1, u)
      | _ => (1, t)
    let eDigits := t'.takeWhile Char.isDigit
    if eDigits = [] then none
    else some (value * (10 : ℚ) ^ ((sign * (digitsToNat eDigits : ℚ)).num),
               t'.dropWhile Char.isDigit)

mutual

/-- Parse one JSON value (fuelled recursion; the engine always supplies
fuel `length + 1`, which is ample since every step consumes input). -/
def parseJsonValue (fuel : Nat) (s : Str) : Option (Json × Str) :=
  match fuel with
  | 0 => none
  | f + 1 =>
    let s := s.dropWhile pyWs
    match s with
    | [] => none
    | c :: rest =>
      if c = '{' then
        match (rest.dropWhile pyWs) with
        | '}' :: r => some (.obj [], r)
        | _ => (parseJsonMembers f rest).map (fun p => (.obj p.1, p.2))
      else if c = '[' then
        match (rest.dropWhile pyWs) with
        | ']' :: r => some (.arr [], r)
        | _ => (parseJsonElems f rest).map (fun p => (.arr p.1, p.2))
      else if c = '"' then
        (parseJsonString rest).map (fun p => (.str p.1, p.2))
      else if c = 't' then
        if (chars ("rue")).isPrefixOf rest then some (.bool true, rest.drop 3) else none
      else if c = 'f' then
        if (chars ("alse")).isPrefixOf rest then some (.bool false, rest.drop 4) else none
      else if c = 'n' then
        if (chars ("ull")).isPrefixOf rest then some (.null, rest.drop 3) else none
      else if c = '-' then
        (parseJsonNumberCore rest).map (fun p => (.num (-p.1), p.2))
      else
        parseJsonNumberCore s |>.map (fun p => (.num p.1, p.2))

/-- Parse the comma-separated members of a JSON object, up to and
including the closing brace. -/
def parseJsonMembers (fuel : Nat) (s : Str) : Option (List (Str × Json) × Str) :=
  match fuel with
  | 0 => none
  | f + 1 =>
    match (s.dropWhile pyWs) with
    | '"' :: rest =>
      match parseJsonString rest with
      | none => none
      | some (key, afterKey) =>
        match (afterKey.dropWhile pyWs) with
        | ':' :: afterColon =>
          match parseJsonValue f afterColon with
          | none => none
          | some (v, afterVal) =>
            match (afterVal.dropWhile pyWs) with
            | ',' :: r => (parseJsonMembers f r).map (fun p => ((key, v) :: p.1, p.2))
            | '}' :: r => some ([(key, v)], r)
            | _ => none
        | _ => none
    | _ => none

/-- Parse the comma-separated elements of a JSON array, up to and
including the closing bracket. -/
def parseJsonElems (fuel : Nat) (s : Str) : Option (List Json × Str) :=
  match fuel with
  | 0 => none
  | f + 1 =>
    match parseJsonValue f s with
    | none => none
    | some (v, afterVal) =>
      match (afterVal.dropWhile pyWs) with
      | ',' :: r => (parseJsonElems f r).map (fun p => (v :: p.1, p.2))
      | ']' :: r => some ([v], r)
      | _ => none

end

/-- Model of Python `json.loads`: the whole input must decode as exactly
one JSON value with nothing but whitespace after it. -/
def jsonLoads (s : Str) : Option Json :=
  match parseJsonValue (s.length + 1) s with
  | none => none
  | some (v, rest) => if rest.dropWhile pyWs = [] then some v else none

/-! ## ActionSchema (`src/sima/action_schema.py`) -/

/-- Threat assessment levels (`ThreatLevel` enum). -/
inductive ThreatLevel where
  | NONE | LOW | MEDIUM | HIGH | CRITICAL
deriving DecidableEq

/-- The `value` of a `ThreatLevel` member. -/
def ThreatLevel.value : ThreatLevel → Str
  | .NONE => chars ("none")
  | .LOW => chars ("low")
  | .MEDIUM => chars ("medium")
  | .HIGH => chars ("high")
  | .CRITICAL => chars ("critical")

/-- The fixed button vocabulary (`GameButton` enum values). -/
def validButtons : List Str :=
  [chars ("UP"), chars ("DOWN"), chars ("LEFT"), chars ("RIGHT"),
   chars ("A"), chars ("B"), chars ("X"), chars ("Y"),
   chars ("L"), chars ("R"), chars ("START"), chars ("SELECT")]

/-- `ControllerOutput` dataclass.  `duration_ms` is declared `int` but at
runtime any JSON number flows through unchecked, so it is modelled as `ℚ`. -/
structure ControllerOutput where
  buttons : List Str
  duration_ms : ℚ := 200
  hold : Bool := false
deriving DecidableEq

/-- `ActionDecision` dataclass. -/
structure ActionDecision where
  visual_observation : Str := []
  threat_assessment : ThreatLevel := .NONE
  threat_details : Str := []
  strategic_goal : Str := []
  immediate_tactic : Str := []
  controller_output : ControllerOutput := { buttons := [] }
  confidence : ℚ := 0
  reasoning_trace : Str := []
  frame_analysis : Option Json := none

/-- Lookup `ThreatLevel[name]` by enum member name, returning `NONE` for an
unknown name (the `except KeyError` branch of `ActionDecision.from_dict`). -/
def threatOfName (u : Str) : ThreatLevel :=
  if u = chars ("NONE") then .NONE
  else if u = chars ("LOW") then .LOW
  else if u = chars ("MEDIUM") then .MEDIUM
  else if u = chars ("HIGH") then .HIGH
  else if u = chars ("CRITICAL") then .CRITICAL
  else .NONE

/-- Extract a string field with a default.  Python's `dict.get` would hand
any value through; a non-string here is only ever interpolated into log
text downstream, so it is coerced to the default. -/
def strFieldD (fields : List (Str × Json)) (key : Str) (dflt : Str) : Str :=
  match dget fields key with
  | some (.str s) => s
  | some _ => dflt
  | none => dflt

/-- Extraction of `data.get("buttons", [])`: a JSON array of strings, `[]`
if absent.  Fields of a JSON type that cannot inhabit the declared
dataclass type would make the engine raise at first use and be replaced by
a fallback decision; such records yield `none` here and below. -/
def buttonsField (fields : List (Str × Json)) : Option (List Str) :=
  match dget fields (chars ("buttons")) with
  | some (.arr xs) => xs.mapM (fun j => match j with | .str s => some s | _ => none)
  | none => some []
  | some _ => none

/-- Extraction of `data.get("duration_ms", 200)`. -/
def durationField (fields : List (Str × Json)) : Option ℚ :=
  match dget fields (chars ("duration_ms")) with
  | some (.num q) => some q
  | none => some 200
  | some _ => none

/-- Extraction of `data.get("hold", False)`. -/
def holdField (fields : List (Str × Json)) : Option Bool :=
  match dget fields (chars ("hold")) with
  | some (.bool b) => some b
  | none => some false
  | some _ => none

/-- `ControllerOutput.from_dict`. -/
def ControllerOutput.from_dict (fields : List (Str × Json)) : Option ControllerOutput :=
  match buttonsField fields, durationField fields, holdField fields with
  | some buttons, some duration_ms, some hold =>
    some { buttons := buttons, duration_ms := duration_ms, hold := hold }
  | _, _, _ => none

/-- The `threat_assessment` lookup of `ActionDecision.from_dict`: default
`"none"` when absent, enum-name lookup with `NONE` fallback on an unknown
name; a present non-string raises `AttributeError` on `.upper()` in the
source, modelled as `none`. -/
def threatField (fields : List (Str × Json)) : Option ThreatLevel :=
  match dget fields (chars ("threat_assessment")) with
  | some (.str s) => some (threatOfName (pyUpper s))
  | none => some ThreatLevel.NONE
  | some _ => none

/-- The `controller_output` lookup of `ActionDecision.from_dict`: a
non-dict value falls back to an empty `ControllerOutput`, a missing one to
`ControllerOutput.from_dict({})`. -/
def controllerField (fields : List (Str × Json)) : Option ControllerOutput :=
  match dget fields (chars ("controller_output")) with
  | some (.obj cf) => ControllerOutput.from_dict cf
  | some _ => some { buttons := [] }
  | none => ControllerOutput.from_dict []

/-- The `confidence` lookup of `ActionDecision.from_dict` (default 0.0). -/
def confidenceField (fields : List (Str × Json)) : Option ℚ :=
  match dget fields (chars ("confidence")) with
  | some (.num q) => some q
  | none => some 0
  | some _ => none

/-- `ActionDecision.from_dict`. -/
def ActionDecision.from_dict (fields : List (Str × Json)) : Option ActionDecision :=
  match threatField fields, controllerField fields, confidenceField fields with
  | some threat, some controller, some confidence =>
    some { visual_observation := strFieldD fields (chars ("visual_observation")) []
           threat_assessment := threat
           threat_details := strFieldD fields (chars ("threat_details")) []
           strategic_goal := strFieldD fields (chars ("strategic_goal")) []
           immediate_tactic := strFieldD fields (chars ("immediate_tactic")) []
           controller_output := controller
           confidence := confidence
           reasoning_trace := strFieldD fields (chars ("reasoning_trace")) []
           frame_analysis := dget fields (chars ("frame_analysis")) }
  | _, _, _ => none

/-- The fallback of `ActionSchema._create_fallback_action`: pause the game,
confidence 0, keeping the first 500 characters of the offending response. -/
def create_fallback_action (response_text : Str) : ActionDecision :=
  { visual_observation := chars ("Failed to parse response")
    threat_assessment := .NONE
    strategic_goal := chars ("Pause and recover")
    immediate_tactic := chars ("Open menu to pause game")
    controller_output := { buttons := [chars ("START")], duration_ms := 100, hold := false }
    confidence := 0
    reasoning_trace := response_text.take 500 }

/-- Tail condition of the fence regex after the closing `}`: optional
whitespace followed by a closing triple backtick (`\s*` backtracking can
never place the backtick on a whitespace character, so the maximal-skip
formulation is exact). -/
def fenceTail (s : Str) : Bool :=
  (chars ("```")).isPrefixOf (s.dropWhile pyWs)

/-- Rightmost index `j` of `v` with `v[j] = '}'` whose suffix satisfies
`fenceTail` — the greedy `.*` of the fence regex. -/
def lastGoodBrace : Str → Option Nat
  | [] => none
  | c :: rest =>
    match lastGoodBrace rest with
    | some k => some (k + 1)
    | none => if c = '}' ∧ fenceTail rest then some 0 else none

/-- Attempt the body `\{.*\}` of the fence regex at the current position:
requires an opening brace, then the greedy closing brace. -/
def fenceCore (u : Str) : Option Str :=
  match u with
  | c :: v => if c = '{' then (lastGoodBrace v).map (fun k => '{' :: v.take (k + 1)) else none
  | [] => none

/-- Attempt the fence regex ```` ```(?:json)?\s*(\{.*\})\s*``` ```` at
position 0 (greedy optional `json`, then maximal whitespace — backtracking
into the whitespace cannot produce `{`). -/
def fenceAt (s : Str) : Option Str :=
  if (chars ("```")).isPrefixOf s then
    let t := s.drop 3
    let withJson :=
      if (chars ("json")).isPrefixOf t then fenceCore ((t.drop 4).dropWhile pyWs) else none
    match withJson with
    | some g => some g
    | none => fenceCore (t.dropWhile pyWs)
  else none

/-- Leftmost match of the fence regex (`re.search` semantics). -/
def fenceSearch : Str → Option Str
  | [] => none
  | c :: rest =>
    match fenceAt (c :: rest) with
    | some g => some g
    | none => fenceSearch rest

/-- The code-fence stripping step of `parse_vlm_response`: applied only when
the stripped text starts with a triple backtick; on no match the text is
left unchanged. -/
def stripFence (t : Str) : Str :=
  if (chars ("```")).isPrefixOf t then
    match fenceSearch t with
    | some g => g
    | none => t
  else t

/-- The greedy JSON-locating regex `\{[\s\S]*\}` under `re.search`: the
match runs from the first `{` to the last `}` of the whole text, provided
the former precedes the latter. -/
def extractBraces (s : Str) : Option Str :=
  match idxOf? '{' s, lastIdxOf? '}' s with
  | some i, some j => if i < j then some ((s.drop i).take (j - i + 1)) else none
  | _, _ => none

/-- Continuation of `parse_vlm_response` once the candidate JSON span is
known (or known to be absent): decode it, build the decision, and stamp the
verbatim response into `reasoning_trace`; every failure path lands on the
fallback action. -/
def parseWithPayload (js : Option Str) (response_text : Str) : ActionDecision :=
  match js with
  | none => create_fallback_action response_text
  | some payload =>
    match jsonLoads payload with
    | some (.obj fields) =>
      match ActionDecision.from_dict fields with
      | some d => { d with reasoning_trace := response_text }
      | none => create_fallback_action response_text
    | _ => create_fallback_action response_text

/-- `ActionSchema.parse_vlm_response`: strip, unwrap a markdown code fence
if present, locate the JSON span, decode, default missing fields. -/
def parse_vlm_response (response_text : Str) : ActionDecision :=
  parseWithPayload (extractBraces (stripFence (pyStrip response_text))) response_text

/-- `ActionSchema.validate_action`: every button is in the fixed vocabulary,
`duration_ms` lies in [50, 2000] and `confidence` lies in [0, 1]. -/
def validate_action (decision : ActionDecision) : Bool :=
  decision.controller_output.buttons.all (fun b => decide (b ∈ validButtons)) &&
  decide ((50 : ℚ) ≤ decision.controller_output.duration_ms ∧
          decision.controller_output.duration_ms ≤ 2000) &&
  decide ((0 : ℚ) ≤ decision.confidence ∧ decision.confidence ≤ 1)

/-! ## MemoryCritic (`src/sima/memory_critic.py`) -/

/-- Frames are opaque to the engine beyond dimensions; a tag distinguishes
distinct captures. -/
structure Frame where
  width : Nat
  height : Nat
  tag : Nat
deriving DecidableEq

/-- `FrameActionPair` dataclass (short-term memory entry).  Timestamps are
opaque strings (their content never influences control flow). -/
structure FrameActionPair where
  frame : Option Frame
  action_description : Str
  timestamp : Str
  health : Option Int := none
  threat_level : Option Str := none
deriving DecidableEq

/-- `Lesson` dataclass.  Note the declared default `confidence = 1.0`. -/
structure Lesson where
  lesson_text : Str
  context : Str
  cause_of_failure : Str
  timestamp : Str
  confidence : ℚ := 1
  times_referenced : Nat := 0
deriving DecidableEq

/-- `Lesson.from_dict` (`now` stands for `datetime.now().isoformat()`,
used when the record has no timestamp; ISO round-tripping of a present
timestamp string is the identity and is not re-modelled).  A present
non-number confidence is coerced to the default, as its only uses
downstream are numeric. -/
def Lesson.from_dict (now : Str) (data : List (Str × Json)) : Lesson :=
  { lesson_text := strFieldD data (chars ("lesson_text")) []
    context := strFieldD data (chars ("context")) []
    cause_of_failure := strFieldD data (chars ("cause_of_failure")) []
    timestamp := strFieldD data (chars ("timestamp")) now
    confidence :=
      match dget data (chars ("confidence")) with
      | some (.num q) => q
      | _ => 1
    times_referenced :=
      match dget data (chars ("times_referenced")) with
      | some (.num q) => q.num.toNat
      | _ => 0 }

/-- Contents of the persistent lesson file
(`lessons` array plus `metadata` counters; `last_updated` is a wall-clock
string with no behavioural content and is omitted). -/
structure SavedStore where
  lessons : List Lesson
  total_failures : Nat
  total_lessons : Nat
deriving DecidableEq

/-- Mutable state of a `MemoryCritic` instance.  `savedFile` models the
on-disk lesson file (`none` until first written). -/
structure CriticState where
  enable_critic : Bool
  short_term_size : Nat
  short_term_memory : List FrameActionPair
  lessons : List Lesson
  total_failures : Nat
  total_lessons : Nat
  savedFile : Option SavedStore
deriving DecidableEq

/-- `MemoryCritic._save_lessons`: the whole file is rewritten from the
current lesson list and counters. -/
def save_lessons (st : CriticState) : CriticState :=
  { st with savedFile := some { lessons := st.lessons
                                total_failures := st.total_failures
                                total_lessons := st.total_lessons } }

/-- `MemoryCritic.add_frame_action`: append to the bounded deque
(`maxlen = short_term_size`, oldest entries evicted from the front). -/
def add_frame_action (st : CriticState) (pair : FrameActionPair) : CriticState :=
  let l := st.short_term_memory ++ [pair]
  { st with short_term_memory :=
      if st.short_term_size < l.length then l.drop (l.length - st.short_term_size) else l }

/-- `MemoryCritic.clear_short_term_memory`. -/
def clear_short_term_memory (st : CriticState) : CriticState :=
  { st with short_term_memory := [] }

/-- `MemoryCritic.add_lesson`: append to long-term memory, bump the
counter, and immediately flush the store to disk. -/
def add_lesson (st : CriticState) (lesson : Lesson) : CriticState :=
  save_lessons { st with lessons := st.lessons ++ [lesson]
                         total_lessons := st.total_lessons + 1 }

/-- Number of distinct whitespace-delimited tokens shared by the two
texts (`len(set(a.split()) & set(b.split()))`). -/
def sharedTokens (a b : Str) : Nat :=
  (((pySplit a).dedup).filter (fun w => w ∈ pySplit b)).length

/-- Relevance score of one lesson for a (lowercased) context, exactly as
accumulated in `get_relevant_lessons`: +2 on substring context match, +0.1
per shared keyword, scaled by confidence, damped by reference count. -/
def scoreLesson (ctxLower : Str) (lesson : Lesson) : ℚ :=
  let score : ℚ := 0
  let score := if (pyLower lesson.context) <:+: ctxLower ∨
                  ctxLower <:+: (pyLower lesson.context) then score + 2 else score
  let score := score + (sharedTokens (pyLower lesson.lesson_text) ctxLower : ℚ) * (1 / 10)
  let score := score * lesson.confidence
  score / (1 + (lesson.times_referenced : ℚ) * (1 / 10))

/-- Stable descending insertion: the new element goes in front of the first
strictly smaller key, behind earlier equal keys — the order produced by
CPython's stable `list.sort(key=..., reverse=True)`. -/
def insertDesc (x : ℚ × Nat) : List (ℚ × Nat) → List (ℚ × Nat)
  | [] => [x]
  | y :: ys => if y.1 ≥ x.1 then y :: insertDesc x ys else x :: y :: ys

/-- Stable descending sort by score (model of `list.sort(key=lambda x:
x[0], reverse=True)` on (score, lesson) pairs). -/
def sortDesc : List (ℚ × Nat) → List (ℚ × Nat)
  | [] => []
  | x :: xs => insertDesc x (sortDesc xs)

/-- The (score, index) pairs of the lessons surviving the confidence
filter, in store order. -/
def scoredLessons (ctx : Str) (min_confidence : ℚ) (lessons : List Lesson) :
    List (ℚ × Nat) :=
  ((lessons.enum.filter (fun p => ¬ p.2.confidence < min_confidence)).map
    (fun p => (scoreLesson (pyLower ctx) p.2, p.1)))

/-- Store indices of the lessons `get_relevant_lessons` returns, in return
order (descending score, ties in store order, truncated to `max_lessons`). -/
def relevantIndices (ctx : Str) (max_lessons : Nat) (min_confidence : ℚ)
    (lessons : List Lesson) : List Nat :=
  ((sortDesc (scoredLessons ctx min_confidence lessons)).take max_lessons).map (·.2)

/-- Bump the reference count of a lesson. -/
def bumpRef (l : Lesson) : Lesson :=
  { l with times_referenced := l.times_referenced + 1 }

/-- `MemoryCritic.get_relevant_lessons`: keyword/substring scoring, stable
descending sort, truncation, and the side-effecting reference-count bump on
every returned lesson.  Returns the (already bumped) lessons in relevance
order together with the updated store. -/
def get_relevant_lessons (ctx : Str) (max_lessons : Nat) (min_confidence : ℚ)
    (lessons : List Lesson) : List Lesson × List Lesson :=
  if lessons = [] then ([], lessons) else
  let idxs := relevantIndices ctx max_lessons min_confidence lessons
  let updated := lessons.enum.map (fun p => if p.1 ∈ idxs then bumpRef p.2 else p.2)
  (idxs.filterMap (fun i => updated.get? i), updated)

/-- Outcome of the external failure-analysis call. -/
inductive CriticCallOutcome where
  | fails : CriticCallOutcome
  | response (text : Str) : CriticCallOutcome

/-- `MemoryCritic._parse_lesson_response`: locate `\{[\s\S]*\}`, decode it,
build a `Lesson` with fixed initial confidence 0.8 (`now` stands for
`datetime.now()`). -/
def parse_lesson_response (response : Str) (default_context : Str) (now : Str) :
    Option Lesson :=
  match extractBraces response with
  | none => none
  | some payload =>
    match jsonLoads payload with
    | some (.obj data) =>
      some { lesson_text := strFieldD data (chars ("lesson")) []
             context := strFieldD data (chars ("context")) default_context
             cause_of_failure := strFieldD data (chars ("cause_of_failure")) (chars ("Unknown"))
             timestamp := now
             confidence := 8 / 10
             times_referenced := 0 }
    | _ => none

/-- `MemoryCritic.analyze_failure`: best-effort failure analysis.  The
prompt built from recent history only feeds the external call, whose
outcome the oracle supplies; `frames_to_analyze` likewise only shapes the
prompt.  Every failure path returns `none` and records nothing. -/
def analyze_failure (st : CriticState) (failure_type : Str) (context : Option Str)
    (now : Str) (outcome : CriticCallOutcome) : Option Lesson × CriticState :=
  if ¬ st.enable_critic then (none, st)
  else if st.short_term_memory = [] then (none, st)
  else
    let st := { st with total_failures := st.total_failures + 1 }
    match outcome with
    | .fails => (none, st)
    | .response r =>
      match parse_lesson_response r (context.getD failure_type) now with
      | some lesson => (some lesson, add_lesson st lesson)
      | none => (none, st)

/-- The public mutating operations of a `MemoryCritic` after start-up. -/
inductive CriticOp where
  | addFrame (pair : FrameActionPair) : CriticOp
  | clearShortTerm : CriticOp
  | addLesson (lesson : Lesson) : CriticOp
  | getRelevant (ctx : Str) (max_lessons : Nat) (min_confidence : ℚ) : CriticOp
  | analyzeFailure (failure_type : Str) (context : Option Str) (now : Str)
      (outcome : CriticCallOutcome) : CriticOp

/-- State transition of one critic operation. -/
def applyCriticOp (op : CriticOp) (st : CriticState) : CriticState :=
  match op with
  | .addFrame pair => add_frame_action st pair
  | .clearShortTerm => clear_short_term_memory st
  | .addLesson lesson => add_lesson st lesson
  | .getRelevant ctx maxL minC =>
    { st with lessons := (get_relevant_lessons ctx maxL minC st.lessons).2 }
  | .analyzeFailure ft ctx now outcome => (analyze_failure st ft ctx now outcome).2

/-! ## TemporalBuffer (`src/sima/temporal_buffer.py`) -/

/-- State of a `TemporalBuffer`: bounded deque of frames (oldest first),
configured capacity and stitching orientation, and the running frame
counter. -/
structure TBuffer where
  buffer_size : Nat
  horizontal : Bool
  frames : List Frame
  frame_count : Nat
deriving DecidableEq

/-- A freshly constructed buffer. -/
def TBuffer.init (buffer_size : Nat) (horizontal : Bool) : TBuffer :=
  { buffer_size := buffer_size, horizontal := horizontal, frames := [], frame_count := 0 }

/-- `TemporalBuffer.add_frame`: append a copy, evicting the oldest frame
when at capacity (`deque(maxlen=buffer_size)`). -/
def add_frame (frame : Frame) (b : TBuffer) : TBuffer :=
  let l := b.frames ++ [frame]
  { b with frames := if b.buffer_size < l.length then l.drop (l.length - b.buffer_size) else l
           frame_count := b.frame_count + 1 }

/-- The stitched composite: overall canvas size plus the pasted panels,
each recorded as (offset along the stitching axis, frame). -/
structure Filmstrip where
  width : Nat
  height : Nat
  panels : List (Nat × Frame)
deriving DecidableEq

/-- The paste loop of `_stitch_horizontal`: offsets accumulate the widths
of the preceding frames. -/
def panelsFrom (extent : Frame → Nat) (offset : Nat) : List Frame → List (Nat × Frame)
  | [] => []
  | f :: rest => (offset, f) :: panelsFrom extent (offset + extent f) rest

/-- `TemporalBuffer._stitch_horizontal`: canvas of summed widths and
maximal height, frames pasted left to right. -/
def stitch_horizontal (frames : List Frame) : Filmstrip :=
  { width := (frames.map Frame.width).sum
    height := (frames.map Frame.height).foldr max 0
    panels := panelsFrom Frame.width 0 frames }

/-- `TemporalBuffer._stitch_vertical`: canvas of maximal width and summed
heights, frames pasted top to bottom. -/
def stitch_vertical (frames : List Frame) : Filmstrip :=
  { width := (frames.map Frame.width).foldr max 0
    height := (frames.map Frame.height).sum
    panels := panelsFrom Frame.height 0 frames }

/-- `TemporalBuffer.create_filmstrip`: `none` on an empty buffer; otherwise
pad to capacity by duplicating the most recent frame and stitch.  The
`except` fallback around stitching is unreachable in the model (stitching
is pure). -/
def create_filmstrip (b : TBuffer) : Option Filmstrip :=
  if b.frames = [] then none
  else
    let frames :=
      if b.frames.length < b.buffer_size then
        b.frames ++ List.replicate (b.buffer_size - b.frames.length)
          (b.frames.getLastD { width := 0, height := 0, tag := 0 })
      else b.frames
    some (if b.horizontal then stitch_horizontal frames else stitch_vertical frames)

/-! ## PixelsToActionsAgent (`src/sima/pixels_to_actions_agent.py`) -/

/-- Health bucket used by `_format_health_status`'s percentage thresholds. -/
inductive HBucket where
  | critical | low | moderate | good
deriving DecidableEq

/-- The shape of `_format_health_status`'s result (the source interpolates
these data into a status string; the numeric text is not re-modelled). -/
inductive HealthStatus where
  | unknown : HealthStatus
  | heartsOnly (health : Int) : HealthStatus
  | report (bucket : HBucket) (health max_health : Int) : HealthStatus
deriving DecidableEq

/-- Percentage bucketing of `_format_health_status` (callable only with a
non-zero maximum; the division is exact rational arithmetic). -/
def healthBucket (health max_health : Int) : HBucket :=
  let percentage : ℚ := ((health : ℚ) / (max_health : ℚ)) * 100
  if percentage ≤ 10 then .critical
  else if percentage ≤ 30 then .low
  else if percentage ≤ 60 then .moderate
  else .good

/-- `PixelsToActionsAgent._format_health_status`.  `none` models the
`ZeroDivisionError` a zero maximum raises (caught at the top of
`decide_action`). -/
def format_health_status (health max_health : Option Int) : Option HealthStatus :=
  match health, max_health with
  | none, _ => some .unknown
  | some h, none => some (.heartsOnly h)
  | some h, some m =>
    if m = 0 then none else some (.report (healthBucket h m) h m)

/-- `PixelsToActionsAgent._is_critical_health`. -/
def is_critical_health (health max_health : Option Int) : Bool :=
  match health, max_health with
  | some h, some m => decide (h ≤ 1 ∨ (h : ℚ) ≤ (m : ℚ) * (2 / 10))
  | _, _ => false

/-- Textual rendering of a health status for the lesson-retrieval context
(the source's f-string, minus the numeric percentage suffix, which no
claim depends on). -/
def healthStatusText : HealthStatus → Str
  | .unknown => chars ("Unknown")
  | .heartsOnly h => chars (toString h) ++ chars (" hearts")
  | .report b h m =>
    (match b with
     | .critical => chars ("CRITICAL: ")
     | .low => chars ("Low: ")
     | .moderate => chars ("Moderate: ")
     | .good => chars ("Good: ")) ++
    chars (toString h) ++ chars ("/") ++ chars (toString m) ++ chars (" hearts")

/-- Caller-supplied metadata (`location`, `in_dungeon`, `enemies_nearby`;
the truthiness tests of the source become booleans). -/
structure Metadata where
  location : Option Str := none
  in_dungeon : Bool := false
  enemies_nearby : Bool := false

/-- `PixelsToActionsAgent._build_context_string`. -/
def build_context_string (health_status : Str) (metadata : Option Metadata) : Str :=
  let parts := [health_status] ++
    (match metadata with
     | none => []
     | some md =>
       (match md.location with | some loc => [loc] | none => []) ++
       (if md.in_dungeon then [chars ("dungeon")] else []) ++
       (if md.enemies_nearby then [chars ("combat")] else []))
  List.intercalate (chars (" ")) parts

/-- `PixelsToActionsAgent._create_safe_fallback` (pause; reuses the
controller output of the schema-level fallback). -/
def create_safe_fallback : ActionDecision :=
  { visual_observation := chars ("Error occurred, pausing for safety")
    threat_assessment := .NONE
    strategic_goal := chars ("Pause and recover from error")
    immediate_tactic := chars ("Open menu to pause game")
    controller_output := (create_fallback_action []).controller_output
    confidence := 0 }

/-- Mutable state of a `PixelsToActionsAgent`. -/
structure AgentState where
  temporal_buffer : TBuffer
  critic : CriticState
  last_action : Option ActionDecision
  current_objective : Option Str
  consecutive_low_confidence : Nat
  total_decisions : Nat
  api_timeout_count : Nat

/-- Outcome of one attempt at the external decision call, as seen from
`decide_action`'s `try` block: the base64 encoding of the filmstrip can
fail (returning the safe fallback through the normal path), the request
can time out, fail with a service-level `APIError`, raise something
unexpected, or return response text. -/
inductive VlmOutcome where
  | encodeFailed : VlmOutcome
  | timeout : VlmOutcome
  | apiError : VlmOutcome
  | unexpected : VlmOutcome
  | response (text : Str) : VlmOutcome

/-- `PixelsToActionsAgent._handle_timeout`: reuse the previous decision if
it was confident (> 0.6), otherwise fall back to the safe pause. -/
def handle_timeout (st : AgentState) : ActionDecision :=
  match st.last_action with
  | some la => if la.confidence > 6 / 10 then la else create_safe_fallback
  | none => create_safe_fallback

/-- The commit tail of a successful decision cycle: track low confidence,
append to short-term memory, update `last_action` and the decision counter
(`decision_times` and the thought-process log are timing/log I/O with no
engine-visible state and are not modelled). -/
def commitDecision (st : AgentState) (frame : Frame) (health : Option Int) (now : Str)
    (decision : ActionDecision) : ActionDecision × AgentState :=
  let consecutive := if decision.confidence < 1 / 2 then st.consecutive_low_confidence + 1 else 0
  let critic := add_frame_action st.critic
    { frame := some frame
      action_description := decision.immediate_tactic
      timestamp := now
      health := health
      threat_level := some decision.threat_assessment.value }
  (decision, { st with consecutive_low_confidence := consecutive
                       critic := critic
                       last_action := some decision
                       total_decisions := st.total_decisions + 1 })

/-- `PixelsToActionsAgent.decide_action`: the full decision cycle.  Always
returns a decision (the source's `try`/`except` ladder); the oracle
`outcome` stands for the behaviour of the external call. -/
def decide_action (st : AgentState) (frame : Frame) (health max_health : Option Int)
    (metadata : Option Metadata) (now : Str) (outcome : VlmOutcome) :
    ActionDecision × AgentState :=
  let st := { st with temporal_buffer := add_frame frame st.temporal_buffer }
  match format_health_status health max_health with
  | none =>
    -- ZeroDivisionError propagates to the top-level `except Exception`.
    (create_safe_fallback, st)
  | some hs =>
    let ctx := build_context_string (healthStatusText hs) metadata
    let (_, lessons') := get_relevant_lessons ctx 3 (1 / 2) st.critic.lessons
    let st := { st with critic := { st.critic with lessons := lessons' } }
    match outcome with
    | .encodeFailed =>
      -- `_call_vlm_decision` returns the safe fallback, which then passes
      -- validation (confidence 0 < 0.5) and is committed normally.
      commitDecision st frame health now create_safe_fallback
    | .timeout =>
      ((handle_timeout st), { st with api_timeout_count := st.api_timeout_count + 1 })
    | .apiError => (create_safe_fallback, st)
    | .unexpected => (create_safe_fallback, st)
    | .response text =>
      let st := { st with api_timeout_count := 0 }
      let parsed := parse_vlm_response text
      let decision := if validate_action parsed then parsed else create_safe_fallback
      commitDecision st frame health now decision

/-! ## Theorems -/

/-- Helper: the three range/vocabulary conditions of `validate_action`,
as a proposition. -/
def validSpec (d : ActionDecision) : Prop :=
  (∀ b ∈ d.controller_output.buttons, b ∈ validButtons) ∧
  ((50 : ℚ) ≤ d.controller_output.duration_ms ∧ d.controller_output.duration_ms ≤ 2000) ∧
  ((0 : ℚ) ≤ d.confidence ∧ d.confidence ≤ 1)

/-- Helper: `validate_action` decides `validSpec`. -/
theorem validate_action_eq_true_iff (d : ActionDecision) :
    validate_action d = true ↔ validSpec d := by
  simp [validate_action, validSpec, and_assoc]

/-- C2: `validate_action` returns `false` exactly when some button is
outside the fixed vocabulary, or `duration_ms` lies outside [50, 2000], or
`confidence` lies outside [0, 1]; and both fixed fallback decisions that
the orchestration substitutes on parse or validation failure — confidence
0 and a single `START` (pause) press — always pass validation. -/
theorem C2_validation_totality :
    (∀ d : ActionDecision,
        validate_action d = false ↔
          ((∃ b ∈ d.controller_output.buttons, b ∉ validButtons) ∨
           ¬ ((50 : ℚ) ≤ d.controller_output.duration_ms ∧
              d.controller_output.duration_ms ≤ 2000) ∨
           ¬ ((0 : ℚ) ≤ d.confidence ∧ d.confidence ≤ 1))) ∧
    (∀ text : Str,
        validate_action (create_fallback_action text) = true ∧
        (create_fallback_action text).confidence = 0 ∧
        (create_fallback_action text).controller_output.buttons = [chars ("START")]) ∧
    (validate_action create_safe_fallback = true ∧
     create_safe_fallback.confidence = 0 ∧
     create_safe_fallback.controller_output.buttons = [chars ("START")]) := by
  refine ⟨fun d => ?_, fun text => ⟨rfl, rfl, rfl⟩, ⟨rfl, rfl, rfl⟩⟩
  constructor
  · intro hf
    have hns : ¬ validSpec d := by
      intro hv
      rw [← validate_action_eq_true_iff] at hv
      rw [hf] at hv
      exact Bool.false_ne_true hv
    by_cases ha : ∀ b ∈ d.controller_output.buttons, b ∈ validButtons
    · by_cases hb : (50 : ℚ) ≤ d.controller_output.duration_ms ∧
          d.controller_output.duration_ms ≤ 2000
      · exact Or.inr (Or.inr (fun hc => hns ⟨ha, hb, hc⟩))
      · exact Or.inr (Or.inl hb)
    · push_neg at ha
      exact Or.inl ha
  · intro h
    rw [Bool.eq_false_iff]
    intro htrue
    obtain ⟨ha, hb, hc⟩ := (validate_action_eq_true_iff d).mp htrue
    rcases h with ⟨b, hmem, hnot⟩ | hd | he
    · exact hnot (ha b hmem)
    · exact hd hb
    · exact he hc

/-- C7 counterexample: a `Lesson` record omitting the confidence field is
loaded with confidence 1.0, not 0.8 — both `Lesson.from_dict` and the
dataclass field default use 1.0; only `_parse_lesson_response` (failure
analysis) sets 0.8 explicitly. -/
theorem C7_counterexample :
    (Lesson.from_dict (chars ("2025-01-01T00:00:00")) []).confidence = 1 ∧
    ({ lesson_text := [], context := [], cause_of_failure := [],
       timestamp := [] : Lesson }).confidence = 1 ∧
    ¬ ((1 : ℚ) = 8 / 10) := by
  refine ⟨rfl, rfl, by norm_num⟩

/-- Helper: every lesson built by `_parse_lesson_response` carries the
fixed initial confidence 0.8. -/
theorem parse_lesson_response_confidence (response default_context now : Str)
    (lesson : Lesson) (h : parse_lesson_response response default_context now = some lesson) :
    lesson.confidence = 8 / 10 := by
  unfold parse_lesson_response at h
  split at h
  · exact absurd h (by simp)
  · split at h
    · simp only [Option.some.injEq] at h
      rw [← h]
    · exact absurd h (by simp)

/-- C7 (amended): every lesson produced by failure analysis has initial
confidence 0.8; but a `Lesson` constructed or loaded from a record that
omits the confidence field receives the dataclass default 1.0, not 0.8. -/
theorem C7_lesson_confidence :
    (∀ response default_context now lesson,
        parse_lesson_response response default_context now = some lesson →
        lesson.confidence = 8 / 10) ∧
    (∀ st failure_type context now outcome lesson,
        (analyze_failure st failure_type context now outcome).1 = some lesson →
        lesson.confidence = 8 / 10) ∧
    (∀ now data, dget data (chars ("confidence")) = none →
        (Lesson.from_dict now data).confidence = 1) := by
  refine ⟨parse_lesson_response_confidence, ?_, ?_⟩
  · intro st failure_type context now outcome lesson h
    unfold analyze_failure at h
    split at h
    · exact absurd h (by simp)
    · split at h
      · exact absurd h (by simp)
      · split at h
        · exact absurd h (by simp)
        · rename_i r
          split at h
          · rename_i l heq
            injection h with h
            rw [← h]
            exact parse_lesson_response_confidence r (context.getD failure_type) now l heq
          · exact absurd h (by simp)
  · intro now data h
    unfold Lesson.from_dict
    rw [h]

/-- C7 witness: a concrete successful failure-analysis parse yields a
lesson of confidence 0.8, and the empty record loads with confidence 1. -/
theorem C7_lesson_confidence_witness :
    ((parse_lesson_response (chars ("\x7b\"lesson\": \"Avoid combat at low health\"\x7d"))
        (chars ("death")) (chars ("t0"))).map Lesson.confidence = some (8 / 10)) ∧
    (Lesson.from_dict (chars ("t0")) []).confidence = 1 := by
  constructor
  · cases h : parse_lesson_response (chars ("\x7b\"lesson\": \"Avoid combat at low health\"\x7d"))
        (chars ("death")) (chars ("t0")) with
    | none => exact absurd h (by decide)
    | some lesson =>
      simp [C7_lesson_confidence.1 _ _ _ lesson h]
  · exact C7_lesson_confidence.2.2 (chars ("t0")) [] rfl

/-- Helper: with a positive maximum, the percentage comparisons of
`healthBucket` reduce to integer inequalities. -/
theorem pct_le_iff (h m t : Int) (hm : 0 < m) :
    ((h : ℚ) / (m : ℚ)) * 100 ≤ (t : ℚ) ↔ 100 * h ≤ t * m := by
  have hm' : (0 : ℚ) < (m : ℚ) := by exact_mod_cast hm
  rw [div_mul_eq_mul_div, div_le_iff₀ hm',
    show ((h : ℚ) * 100) = ((100 * h : Int) : ℚ) by push_cast; ring,
    show ((t : ℚ) * (m : ℚ)) = ((t * m : Int) : ℚ) by push_cast; ring]
  exact Int.cast_le

/-- C8: the health-derived context buckets health as critical when the
percentage is ≤ 10, low when ≤ 30, moderate when ≤ 60 and good otherwise;
and a cycle with health 1 of maximum 6 has the explicit critical-health
flag set (`_is_critical_health`). -/
theorem C8_health_buckets :
    (∀ h m : Int, 0 < m →
        ((healthBucket h m = .critical ↔ 10 * h ≤ m) ∧
         (healthBucket h m = .low ↔ (m < 10 * h ∧ 10 * h ≤ 3 * m)) ∧
         (healthBucket h m = .moderate ↔ (3 * m < 10 * h ∧ 5 * h ≤ 3 * m)) ∧
         (healthBucket h m = .good ↔ 3 * m < 5 * h)) ∧
        format_health_status (some h) (some m) = some (.report (healthBucket h m) h m)) ∧
    is_critical_health (some 1) (some 6) = true := by
  refine ⟨fun h m hm => ⟨?_, ?_⟩, by decide⟩
  · have h10 := pct_le_iff h m 10 hm
    have h30 := pct_le_iff h m 30 hm
    have h60 := pct_le_iff h m 60 hm
    by_cases c10 : ((h : ℚ) / (m : ℚ)) * 100 ≤ (10 : Int)
    · have hi : 100 * h ≤ 10 * m := h10.mp c10
      have hb : healthBucket h m = .critical := by
        simp only [healthBucket]
        rw [if_pos (by exact_mod_cast c10)]
      rw [hb]
      refine ⟨⟨fun _ => by omega, fun _ => rfl⟩,
              ⟨fun hx => absurd hx (by decide), fun hx => (by omega : False).elim⟩,
              ⟨fun hx => absurd hx (by decide), fun hx => (by omega : False).elim⟩,
              ⟨fun hx => absurd hx (by decide), fun hx => (by omega : False).elim⟩⟩
    · by_cases c30 : ((h : ℚ) / (m : ℚ)) * 100 ≤ (30 : Int)
      · have hi : 100 * h ≤ 30 * m := h30.mp c30
        have hni : ¬ 100 * h ≤ 10 * m := fun hc => c10 (h10.mpr hc)
        have hb : healthBucket h m = .low := by
          simp only [healthBucket]
          rw [if_neg (by exact_mod_cast c10), if_pos (by exact_mod_cast c30)]
        rw [hb]
        refine ⟨⟨fun hx => absurd hx (by decide), fun hx => (by omega : False).elim⟩,
                ⟨fun _ => by omega, fun _ => rfl⟩,
                ⟨fun hx => absurd hx (by decide), fun hx => (by omega : False).elim⟩,
                ⟨fun hx => absurd hx (by decide), fun hx => (by omega : False).elim⟩⟩
      · by_cases c60 : ((h : ℚ) / (m : ℚ)) * 100 ≤ (60 : Int)
        · have hi : 100 * h ≤ 60 * m := h60.mp c60
          have hn30 : ¬ 100 * h ≤ 30 * m := fun hc => c30 (h30.mpr hc)
          have hb : healthBucket h m = .moderate := by
            simp only [healthBucket]
            rw [if_neg (by exact_mod_cast c10), if_neg (by exact_mod_cast c30),
              if_pos (by exact_mod_cast c60)]
          rw [hb]
          refine ⟨⟨fun hx => absurd hx (by decide), fun hx => (by omega : False).elim⟩,
                  ⟨fun hx => absurd hx (by decide), fun hx => (by omega : False).elim⟩,
                  ⟨fun _ => by omega, fun _ => rfl⟩,
                  ⟨fun hx => absurd hx (by decide), fun hx => (by omega : False).elim⟩⟩
        · have hn60 : ¬ 100 * h ≤ 60 * m := fun hc => c60 (h60.mpr hc)
          have hn30 : ¬ 100 * h ≤ 30 * m := fun hc => c30 (h30.mpr hc)
          have hb : healthBucket h m = .good := by
            simp only [healthBucket]
            rw [if_neg (by exact_mod_cast c10), if_neg (by exact_mod_cast c30),
              if_neg (by exact_mod_cast c60)]
          rw [hb]
          refine ⟨⟨fun hx => absurd hx (by decide), fun hx => (by omega : False).elim⟩,
                  ⟨fun hx => absurd hx (by decide), fun hx => (by omega : False).elim⟩,
                  ⟨fun hx => absurd hx (by decide), fun hx => (by omega : False).elim⟩,
                  ⟨fun _ => by omega, fun _ => rfl⟩⟩
  · simp only [format_health_status]
    rw [if_neg (by omega)]

/-- C8 witness: at health 1 of maximum 6 the bucket is `low` (17 %) while
the critical-health flag is nevertheless set. -/
theorem C8_health_buckets_witness :
    (0 : Int) < 6 ∧ (healthBucket 1 6 = .low ↔ ((6 : Int) < 10 * 1 ∧ (10 : Int) * 1 ≤ 3 * 6)) := by
  exact ⟨by norm_num, ((C8_health_buckets.1 1 6 (by norm_num)).1).2.1⟩

/-- C1: `decide_action` never raises — every outcome of the external call
maps to a returned decision — and its error handling is tiered: a timeout
returns the previous decision unchanged when its confidence exceeded 0.6
and the fixed safe fallback otherwise; a service-level `APIError` and any
unexpected exception caught at the top of the cycle return the fixed safe
fallback. -/
theorem C1_error_tiering :
    ∀ st frame health max_health metadata now,
      (∀ hs, format_health_status health max_health = some hs →
        (∀ la, st.last_action = some la → 6 / 10 < la.confidence →
            (decide_action st frame health max_health metadata now .timeout).1 = la) ∧
        (∀ la, st.last_action = some la → la.confidence ≤ 6 / 10 →
            (decide_action st frame health max_health metadata now .timeout).1 =
              create_safe_fallback) ∧
        (st.last_action = none →
            (decide_action st frame health max_health metadata now .timeout).1 =
              create_safe_fallback)) ∧
      (decide_action st frame health max_health metadata now .apiError).1 =
        create_safe_fallback ∧
      (decide_action st frame health max_health metadata now .unexpected).1 =
        create_safe_fallback := by
  intro st frame health max_health metadata now
  refine ⟨fun hs hhs => ⟨?_, ?_, ?_⟩, ?_, ?_⟩
  · intro la hla hconf
    simp only [decide_action, hhs, handle_timeout, hla]
    rw [if_pos (by exact hconf)]
  · intro la hla hconf
    simp only [decide_action, hhs, handle_timeout, hla]
    rw [if_neg (by exact not_lt.mpr hconf)]
  · intro hla
    simp only [decide_action, hhs, handle_timeout, hla]
  · cases hf : format_health_status health max_health with
    | none => simp [decide_action, hf]
    | some hs => simp [decide_action, hf]
  · cases hf : format_health_status health max_health with
    | none => simp [decide_action, hf]
    | some hs => simp [decide_action, hf]

/-- Helper: a freshly initialised critic with no lessons and no history. -/
def critic0 : CriticState :=
  { enable_critic := true, short_term_size := 100, short_term_memory := [],
    lessons := [], total_failures := 0, total_lessons := 0, savedFile := none }

/-- Helper: one recorded frame/action pair. -/
def pair0 : FrameActionPair :=
  { frame := none, action_description := chars ("move north"),
    timestamp := chars ("t0"), health := some 3, threat_level := none }

/-- Helper: a critic with one history entry. -/
def critic1 : CriticState :=
  { critic0 with short_term_memory := [pair0] }

/-- Helper: a freshly initialised agent. -/
def agent0 : AgentState :=
  { temporal_buffer := TBuffer.init 3 true, critic := critic0, last_action := none,
    current_objective := none, consecutive_low_confidence := 0, total_decisions := 0,
    api_timeout_count := 0 }

/-- Helper: a concrete frame. -/
def frame0 : Frame := { width := 256, height := 224, tag := 0 }

/-- C1 witness: with no previous decision, a timeout on a fresh agent
returns the fixed safe fallback. -/
theorem C1_error_tiering_witness :
    (decide_action agent0 frame0 none none none (chars ("t0")) .timeout).1 =
      create_safe_fallback := by
  exact ((C1_error_tiering agent0 frame0 none none none (chars ("t0"))).1
    .unknown rfl).2.2 rfl

/-- C10: on the timeout, service-error and unexpected-exception fallback
paths, the returned decision is not committed: the decision counter, the
previous action, the consecutive-low-confidence counter and short-term
memory are all unchanged, even though the incoming frame was already added
to the temporal buffer at the start of the cycle. -/
theorem C10_fallback_not_committed :
    ∀ st frame health max_health metadata now outcome,
      (outcome = .timeout ∨ outcome = .apiError ∨ outcome = .unexpected) →
      ((decide_action st frame health max_health metadata now outcome).2.total_decisions =
          st.total_decisions ∧
       (decide_action st frame health max_health metadata now outcome).2.last_action =
          st.last_action ∧
       (decide_action st frame health max_health metadata now
          outcome).2.consecutive_low_confidence = st.consecutive_low_confidence ∧
       (decide_action st frame health max_health metadata now
          outcome).2.critic.short_term_memory = st.critic.short_term_memory ∧
       (decide_action st frame health max_health metadata now outcome).2.temporal_buffer =
          add_frame frame st.temporal_buffer) := by
  intro st frame health max_health metadata now outcome h
  rcases h with rfl | rfl | rfl <;>
    cases hf : format_health_status health max_health <;>
      simp [decide_action, hf]

/-- C10 witness: a service-level error on a fresh agent commits nothing,
while the frame still lands in the temporal buffer. -/
theorem C10_fallback_not_committed_witness :
    (decide_action agent0 frame0 (some 3) (some 6) none (chars ("t0"))
        .apiError).2.total_decisions = agent0.total_decisions ∧
    (decide_action agent0 frame0 (some 3) (some 6) none (chars ("t0"))
        .apiError).2.temporal_buffer = add_frame frame0 agent0.temporal_buffer := by
  have h := C10_fallback_not_committed agent0 frame0 (some 3) (some 6) none (chars ("t0"))
    .apiError (Or.inr (Or.inl rfl))
  exact ⟨h.1, h.2.2.2.2⟩

/-- C9: `analyze_failure` is best-effort: with an empty short-term history
it returns nothing and leaves the store untouched; if the external call
fails, or its output does not parse as the expected JSON, it returns
nothing and records no lesson; on success it appends exactly one lesson
and immediately rewrites the persistent store. -/
theorem C9_analyze_failure_best_effort :
    ∀ st failure_type context now outcome,
      st.enable_critic = true →
      ((st.short_term_memory = [] →
          analyze_failure st failure_type context now outcome = (none, st)) ∧
       (outcome = .fails →
          (analyze_failure st failure_type context now outcome).1 = none ∧
          (analyze_failure st failure_type context now outcome).2.lessons = st.lessons ∧
          (analyze_failure st failure_type context now outcome).2.savedFile = st.savedFile) ∧
       (∀ r, outcome = .response r →
          parse_lesson_response r (context.getD failure_type) now = none →
          (analyze_failure st failure_type context now outcome).1 = none ∧
          (analyze_failure st failure_type context now outcome).2.lessons = st.lessons ∧
          (analyze_failure st failure_type context now outcome).2.savedFile = st.savedFile) ∧
       (∀ r lesson, outcome = .response r → st.short_term_memory ≠ [] →
          parse_lesson_response r (context.getD failure_type) now = some lesson →
          (analyze_failure st failure_type context now outcome).1 = some lesson ∧
          (analyze_failure st failure_type context now outcome).2.lessons =
            st.lessons ++ [lesson] ∧
          (analyze_failure st failure_type context now outcome).2.savedFile =
            some { lessons := st.lessons ++ [lesson]
                   total_failures := st.total_failures + 1
                   total_lessons := st.total_lessons + 1 })) := by
  intro st failure_type context now outcome he
  refine ⟨?_, ?_, ?_, ?_⟩
  · intro hm
    simp [analyze_failure, he, hm]
  · rintro rfl
    by_cases hm : st.short_term_memory = []
    · simp [analyze_failure, he, hm]
    · simp [analyze_failure, he, hm]
  · rintro r rfl hp
    by_cases hm : st.short_term_memory = []
    · simp [analyze_failure, he, hm]
    · simp [analyze_failure, he, hm, hp]
  · rintro r lesson rfl hm hp
    simp [analyze_failure, he, hm, hp, add_lesson, save_lessons]

/-- Helper: a concrete well-formed failure-analysis response. -/
def lessonResp : Str := chars ("\x7b\"lesson\": \"Avoid combat at low health\"\x7d")

/-- Helper: the lesson `lessonResp` parses to. -/
def lesson0 : Lesson :=
  { lesson_text := chars ("Avoid combat at low health"), context := chars ("death"),
    cause_of_failure := chars ("Unknown"), timestamp := chars ("t0"),
    confidence := 8 / 10, times_referenced := 0 }

/-- C9 witness: an empty history yields nothing and leaves the critic
untouched; a successful parse on a non-empty history appends one lesson
and flushes the store. -/
theorem C9_analyze_failure_best_effort_witness :
    analyze_failure critic0 (chars ("death")) none (chars ("t0")) .fails = (none, critic0) ∧
    (analyze_failure critic1 (chars ("death")) none (chars ("t0"))
        (.response lessonResp)).1 = some lesson0 ∧
    (analyze_failure critic1 (chars ("death")) none (chars ("t0"))
        (.response lessonResp)).2.lessons = critic1.lessons ++ [lesson0] := by
  have h1 := (C9_analyze_failure_best_effort critic0 (chars ("death")) none (chars ("t0"))
    .fails rfl).1 rfl
  have h2 := (C9_analyze_failure_best_effort critic1 (chars ("death")) none (chars ("t0"))
    (.response lessonResp) rfl).2.2.2 lessonResp lesson0 rfl (by decide) (by rfl)
  exact ⟨h1, h2.1, h2.2.1⟩

/-- Helper: folding `add_frame` never changes the configuration. -/
theorem foldl_add_frame_config (l : List Frame) :
    ∀ b : TBuffer,
      (l.foldl (fun b f => add_frame f b) b).buffer_size = b.buffer_size ∧
      (l.foldl (fun b f => add_frame f b) b).horizontal = b.horizontal := by
  induction l with
  | nil => intro b; exact ⟨rfl, rfl⟩
  | cons f t ih =>
    intro b
    simpa using ih (add_frame f b)

/-- Helper: while the buffer stays under capacity, `add_frame` only
appends. -/
theorem foldl_add_frame_frames (l : List Frame) :
    ∀ b : TBuffer, b.frames.length + l.length ≤ b.buffer_size →
      (l.foldl (fun b f => add_frame f b) b).frames = b.frames ++ l := by
  induction l with
  | nil => intro b _; simp
  | cons f t ih =>
    intro b hb
    have hb' : b.frames.length + (t.length + 1) ≤ b.buffer_size := by
      simp only [List.length_cons] at hb
      omega
    have hlen : ¬ b.buffer_size < (b.frames ++ [f]).length := by
      simp only [List.length_append, List.length_cons, List.length_nil]
      omega
    have hstep : (add_frame f b).frames = b.frames ++ [f] := by
      simp only [add_frame]
      rw [if_neg hlen]
    have := ih (add_frame f b) (by
      rw [hstep]
      simp only [List.length_append, List.length_cons, List.length_nil]
      have hsz : (add_frame f b).buffer_size = b.buffer_size := rfl
      rw [hsz]
      omega)
    simp only [List.foldl_cons]
    rw [this, hstep, List.append_assoc]
    rfl

/-- Helper: panels pasted by the stitch loop, length. -/
theorem panelsFrom_length (extent : Frame → Nat) (fs : List Frame) :
    ∀ offset, (panelsFrom extent offset fs).length = fs.length := by
  induction fs with
  | nil => intro offset; rfl
  | cons f t ih => intro offset; simp [panelsFrom, ih]

/-- Helper: the pasted frames are exactly the input frames, in order. -/
theorem panelsFrom_map_snd (extent : Frame → Nat) (fs : List Frame) :
    ∀ offset, (panelsFrom extent offset fs).map Prod.snd = fs := by
  induction fs with
  | nil => intro offset; rfl
  | cons f t ih => intro offset; simp [panelsFrom, ih]

/-- Helper: consecutive panels are contiguous: each offset is the previous
offset plus the previous frame's extent. -/
theorem panelsFrom_chain (extent : Frame → Nat) (fs : List Frame) :
    ∀ offset, List.Chain' (fun p q => q.1 = p.1 + extent p.2)
      (panelsFrom extent offset fs) := by
  induction fs with
  | nil => intro offset; simp [panelsFrom]
  | cons f t ih =>
    intro offset
    cases t with
    | nil => simp [panelsFrom]
    | cons g u =>
      refine List.Chain'.cons ?_ (ih (offset + extent f))
      rfl

/-- Helper: the first panel is pasted at offset 0. -/
theorem panelsFrom_head (extent : Frame → Nat) (fs : List Frame) (offset : Nat) :
    (panelsFrom extent offset fs).head?.map Prod.fst = if fs = [] then none else some offset := by
  cases fs with
  | nil => rfl
  | cons f t => rfl

/-- C4: for any sequence of 1..K frame additions into a fresh horizontal
buffer of capacity K, `create_filmstrip` returns a composite with exactly K
contiguous panels in chronological order oldest to newest, the missing
panels filled with copies of the most recent frame; with zero additions it
returns nothing. -/
theorem C4_filmstrip_shape :
    ∀ (K : Nat) (l : List Frame) (last : Frame),
      1 ≤ l.length → l.length ≤ K → l.getLast? = some last →
      (∃ strip,
        create_filmstrip (l.foldl (fun b f => add_frame f b) (TBuffer.init K true)) =
          some strip ∧
        strip.panels.length = K ∧
        strip.panels.map Prod.snd = l ++ List.replicate (K - l.length) last ∧
        List.Chain' (fun p q => q.1 = p.1 + p.2.width) strip.panels ∧
        strip.panels.head?.map Prod.fst = some 0) ∧
      create_filmstrip (TBuffer.init K true) = none := by
  intro K l last h1 hK hlast
  have hne : l ≠ [] := by
    intro h; rw [h] at h1; exact absurd h1 (by decide)
  have hcfg := foldl_add_frame_config l (TBuffer.init K true)
  have hfr : (l.foldl (fun b f => add_frame f b) (TBuffer.init K true)).frames = l := by
    have := foldl_add_frame_frames l (TBuffer.init K true) (by simpa [TBuffer.init] using hK)
    simpa [TBuffer.init] using this
  constructor
  · set b := l.foldl (fun b f => add_frame f b) (TBuffer.init K true) with hb
    have hsize : b.buffer_size = K := hcfg.1
    have hhor : b.horizontal = true := hcfg.2
    have hpad :
        (if b.frames.length < b.buffer_size then
          b.frames ++ List.replicate (b.buffer_size - b.frames.length)
            (b.frames.getLastD { width := 0, height := 0, tag := 0 })
         else b.frames) = l ++ List.replicate (K - l.length) last := by
      rw [hfr, hsize]
      have hlastD : l.getLastD { width := 0, height := 0, tag := 0 } = last := by
        rw [List.getLastD_eq_getLast?, hlast]
        rfl
      by_cases hlt : l.length < K
      · rw [if_pos hlt, hlastD]
      · rw [if_neg hlt]
        have : K - l.length = 0 := by omega
        rw [this]
        simp
    refine ⟨stitch_horizontal (l ++ List.replicate (K - l.length) last), ?_, ?_, ?_, ?_, ?_⟩
    · unfold create_filmstrip
      rw [if_neg (by rw [hfr]; exact hne), hpad, hhor]
      simp
    · unfold stitch_horizontal
      simp only
      rw [panelsFrom_length]
      simp only [List.length_append, List.length_replicate]
      omega
    · exact panelsFrom_map_snd Frame.width _ 0
    · exact panelsFrom_chain Frame.width _ 0
    · rw [show (stitch_horizontal (l ++ List.replicate (K - l.length) last)).panels =
        panelsFrom Frame.width 0 (l ++ List.replicate (K - l.length) last) from rfl]
      rw [panelsFrom_head]
      rw [if_neg (by simp [hne])]
  · simp [create_filmstrip, TBuffer.init]

/-- C4 witness: one addition into a fresh 3-frame buffer yields a 3-panel
filmstrip padded with the single frame. -/
theorem C4_filmstrip_shape_witness :
    (1 : Nat) ≤ [frame0].length ∧ [frame0].length ≤ 3 ∧
    [frame0].getLast? = some frame0 ∧
    (∃ strip,
      create_filmstrip ([frame0].foldl (fun b f => add_frame f b) (TBuffer.init 3 true)) =
        some strip ∧
      strip.panels.length = 3 ∧
      strip.panels.map Prod.snd = [frame0] ++ List.replicate (3 - [frame0].length) frame0 ∧
      List.Chain' (fun p q => q.1 = p.1 + p.2.width) strip.panels ∧
      strip.panels.head?.map Prod.fst = some 0) := by
  refine ⟨by decide, by decide, rfl, ?_⟩
  exact (C4_filmstrip_shape 3 [frame0] frame0 (by decide) (by decide) rfl).1

/-- Helper: the key order of the descending sort (later score dominates
being smaller-or-equal). -/
def scoreGe (a b : ℚ × Nat) : Prop := b.1 ≤ a.1

/-- Helper: inserting permutes. -/
theorem insertDesc_perm (x : ℚ × Nat) (l : List (ℚ × Nat)) :
    (insertDesc x l).Perm (x :: l) := by
  induction l with
  | nil => simp [insertDesc]
  | cons y ys ih =>
    by_cases h : y.1 ≥ x.1
    · rw [insertDesc, if_pos h]
      exact (ih.cons y).trans (List.Perm.swap x y ys)
    · rw [insertDesc, if_neg h]

/-- Helper: sorting permutes. -/
theorem sortDesc_perm (l : List (ℚ × Nat)) : (sortDesc l).Perm l := by
  induction l with
  | nil => simp [sortDesc]
  | cons x xs ih =>
    exact (insertDesc_perm x (sortDesc xs)).trans (ih.cons x)

/-- Helper: inserting preserves descending order. -/
theorem insertDesc_pairwise (x : ℚ × Nat) (l : List (ℚ × Nat))
    (hl : l.Pairwise scoreGe) : (insertDesc x l).Pairwise scoreGe := by
  induction l with
  | nil => simp [insertDesc, scoreGe]
  | cons y ys ih =>
    obtain ⟨hy, hys⟩ := List.pairwise_cons.mp hl
    by_cases h : y.1 ≥ x.1
    · rw [insertDesc, if_pos h]
      refine List.pairwise_cons.mpr ⟨?_, ih hys⟩
      intro z hz
      rcases List.mem_cons.mp ((insertDesc_perm x ys).mem_iff.mp hz) with rfl | hzy
      · exact h
      · exact hy z hzy
    · rw [insertDesc, if_neg h]
      refine List.pairwise_cons.mpr ⟨?_, hl⟩
      intro z hz
      rcases List.mem_cons.mp hz with rfl | hzy
      · exact le_of_lt (lt_of_not_ge h)
      · exact le_trans (hy z hzy) (le_of_lt (lt_of_not_ge h))

/-- Helper: the sort output is in non-increasing score order. -/
theorem sortDesc_pairwise (l : List (ℚ × Nat)) : (sortDesc l).Pairwise scoreGe := by
  induction l with
  | nil => simp [sortDesc]
  | cons x xs ih => exact insertDesc_pairwise x (sortDesc xs) ih

/-- Helper: membership in the scored list characterised by the store. -/
theorem mem_scoredLessons {ctx : Str} {minC : ℚ} {lessons : List Lesson} {p : ℚ × Nat} :
    p ∈ scoredLessons ctx minC lessons ↔
      ∃ lsn, lessons.get? p.2 = some lsn ∧ ¬ lsn.confidence < minC ∧
        p.1 = scoreLesson (pyLower ctx) lsn := by
  unfold scoredLessons
  rw [List.mem_map]
  constructor
  · rintro ⟨q, hq, rfl⟩
    obtain ⟨hqe, hqc⟩ := List.mem_filter.mp hq
    refine ⟨q.2, ?_, by simpa using hqc, rfl⟩
    exact List.mem_enum_iff_get?.mp hqe
  · rintro ⟨lsn, hget, hconf, hscore⟩
    refine ⟨(p.2, lsn), ?_, ?_⟩
    · exact List.mem_filter.mpr ⟨List.mem_enum_iff_get?.mpr hget, by simpa using hconf⟩
    · rw [← hscore]

/-- Helper: the scored list carries pairwise-distinct store indices. -/
theorem scoredLessons_snd_nodup (ctx : Str) (minC : ℚ) (lessons : List Lesson) :
    ((scoredLessons ctx minC lessons).map Prod.snd).Nodup := by
  unfold scoredLessons
  rw [List.map_map]
  have heq : (Prod.snd ∘ fun p : Nat × Lesson => (scoreLesson (pyLower ctx) p.2, p.1)) =
      Prod.fst := by
    funext p; rfl
  rw [heq]
  have hsub : ((lessons.enum.filter
      (fun p => ¬ p.2.confidence < minC)).map Prod.fst).Sublist
      (lessons.enum.map Prod.fst) :=
    (List.filter_sublist _).map Prod.fst
  rw [List.enum_map_fst] at hsub
  exact (List.nodup_range _).sublist hsub

/-- Helper: the selected indices are pairwise distinct. -/
theorem relevantIndices_nodup (ctx : Str) (maxL : Nat) (minC : ℚ) (lessons : List Lesson) :
    (relevantIndices ctx maxL minC lessons).Nodup := by
  unfold relevantIndices
  rw [List.map_take]
  refine List.Nodup.sublist (List.take_sublist _ _) ?_
  have hperm : ((sortDesc (scoredLessons ctx minC lessons)).map Prod.snd).Perm
      ((scoredLessons ctx minC lessons).map Prod.snd) :=
    (sortDesc_perm _).map Prod.snd
  exact hperm.nodup_iff.mpr (scoredLessons_snd_nodup ctx minC lessons)

/-- C6: a stored lesson is mutated only by bumping `times_referenced`:
`get_relevant_lessons` bumps each returned lesson's count by exactly one
(the returned indices are pairwise distinct), every other field of every
stored lesson is preserved, and `times_referenced` is monotonically
non-decreasing under every critic operation. -/
theorem C6_reference_count_only_mutation :
    (∀ ctx maxL minC lessons,
        let out := get_relevant_lessons ctx maxL minC lessons
        let idxs := relevantIndices ctx maxL minC lessons
        out.2.length = lessons.length ∧
        idxs.Nodup ∧
        (∀ i lsn, lessons.get? i = some lsn →
            out.2.get? i = some (if i ∈ idxs then bumpRef lsn else lsn)) ∧
        (∀ lsn' ∈ out.1, ∃ i lsn, lessons.get? i = some lsn ∧ i ∈ idxs ∧
            lsn' = bumpRef lsn)) ∧
    (∀ lsn : Lesson,
        (bumpRef lsn).lesson_text = lsn.lesson_text ∧
        (bumpRef lsn).context = lsn.context ∧
        (bumpRef lsn).cause_of_failure = lsn.cause_of_failure ∧
        (bumpRef lsn).timestamp = lsn.timestamp ∧
        (bumpRef lsn).confidence = lsn.confidence ∧
        (bumpRef lsn).times_referenced = lsn.times_referenced + 1) ∧
    (∀ op st i lsn lsn', st.lessons.get? i = some lsn →
        (applyCriticOp op st).lessons.get? i = some lsn' →
        lsn.times_referenced ≤ lsn'.times_referenced) := by
  have hmain : ∀ ctx maxL minC (lessons : List Lesson),
      (get_relevant_lessons ctx maxL minC lessons).2.length = lessons.length ∧
      (relevantIndices ctx maxL minC lessons).Nodup ∧
      (∀ i lsn, lessons.get? i = some lsn →
          (get_relevant_lessons ctx maxL minC lessons).2.get? i =
            some (if i ∈ relevantIndices ctx maxL minC lessons then bumpRef lsn else lsn)) ∧
      (∀ lsn' ∈ (get_relevant_lessons ctx maxL minC lessons).1,
          ∃ i lsn, lessons.get? i = some lsn ∧
            i ∈ relevantIndices ctx maxL minC lessons ∧ lsn' = bumpRef lsn) := by
    intro ctx maxL minC lessons
    by_cases hL : lessons = []
    · subst hL
      refine ⟨rfl, relevantIndices_nodup ctx maxL minC [], ?_, ?_⟩
      · intro i lsn h; exact absurd h (by simp)
      · intro lsn' h; exact absurd h (by simp [get_relevant_lessons])
    · have hout2 : (get_relevant_lessons ctx maxL minC lessons).2 =
          lessons.enum.map (fun p =>
            if p.1 ∈ relevantIndices ctx maxL minC lessons then bumpRef p.2 else p.2) := by
        simp [get_relevant_lessons, hL]
      have hget : ∀ i lsn, lessons.get? i = some lsn →
          (get_relevant_lessons ctx maxL minC lessons).2.get? i =
            some (if i ∈ relevantIndices ctx maxL minC lessons then bumpRef lsn else lsn) := by
        intro i lsn h
        rw [hout2, List.get?_map, List.get?_enum, h]
        rfl
      refine ⟨?_, relevantIndices_nodup ctx maxL minC lessons, hget, ?_⟩
      · rw [hout2]; simp [List.enum_length]
      · intro lsn' hmem
        have hout1 : (get_relevant_lessons ctx maxL minC lessons).1 =
            (relevantIndices ctx maxL minC lessons).filterMap
              (fun i => (get_relevant_lessons ctx maxL minC lessons).2.get? i) := by
          simp [get_relevant_lessons, hL]
        rw [hout1] at hmem
        obtain ⟨i, hi, hsome⟩ := List.mem_filterMap.mp hmem
        cases hlsn : lessons.get? i with
        | none =>
          rw [hout2, List.get?_map, List.get?_enum, hlsn] at hsome
          exact absurd hsome (by simp)
        | some lsn =>
          refine ⟨i, lsn, hlsn, hi, ?_⟩
          rw [hget i lsn hlsn, if_pos hi] at hsome
          injection hsome with h
          rw [← h]
  refine ⟨fun ctx maxL minC lessons => hmain ctx maxL minC lessons,
         fun lsn => ⟨rfl, rfl, rfl, rfl, rfl, rfl⟩, ?_⟩
  intro op st i lsn lsn' hget hget'
  cases op with
  | addFrame pair =>
    have : (applyCriticOp (.addFrame pair) st).lessons = st.lessons := rfl
    rw [this, hget] at hget'
    injection hget' with h
    rw [← h]
  | clearShortTerm =>
    have : (applyCriticOp .clearShortTerm st).lessons = st.lessons := rfl
    rw [this, hget] at hget'
    injection hget' with h
    rw [← h]
  | addLesson lesson =>
    have hl : (applyCriticOp (.addLesson lesson) st).lessons = st.lessons ++ [lesson] := rfl
    have hi : i < st.lessons.length := (List.get?_eq_some.mp hget).1
    rw [hl, List.get?_append hi, hget] at hget'
    injection hget' with h
    rw [← h]
  | getRelevant ctx maxL minC =>
    have hl : (applyCriticOp (.getRelevant ctx maxL minC) st).lessons =
        (get_relevant_lessons ctx maxL minC st.lessons).2 := rfl
    rw [hl] at hget'
    have := (hmain ctx maxL minC st.lessons).2.2.1 i lsn hget
    rw [this] at hget'
    injection hget' with h
    rw [← h]
    by_cases hmem : i ∈ relevantIndices ctx maxL minC st.lessons
    · rw [if_pos hmem]; exact Nat.le_succ _
    · rw [if_neg hmem]
  | analyzeFailure ft ctx now outcome =>
    have hl : (applyCriticOp (.analyzeFailure ft ctx now outcome) st).lessons =
        (analyze_failure st ft ctx now outcome).2.lessons := rfl
    rw [hl] at hget'
    unfold analyze_failure at hget'
    split at hget'
    · rw [hget] at hget'; injection hget' with h; rw [← h]
    · split at hget'
      · rw [hget] at hget'; injection hget' with h; rw [← h]
      · split at hget'
        · rw [hget] at hget'; injection hget' with h; rw [← h]
        · split at hget'
          · simp only [add_lesson, save_lessons] at hget'
            have hi : i < st.lessons.length := (List.get?_eq_some.mp hget).1
            rw [List.get?_append hi, hget] at hget'
            injection hget' with h
            rw [← h]
          · rw [hget] at hget'; injection hget' with h; rw [← h]

/-- Helper: a second critic with one stored lesson. -/
def critic2 : CriticState := { critic0 with lessons := [lesson0] }

/-- C6 witness: the bump touches only the reference count, and a concrete
non-lesson operation preserves the count. -/
theorem C6_reference_count_only_mutation_witness :
    ((bumpRef lesson0).confidence = lesson0.confidence ∧
     (bumpRef lesson0).times_referenced = lesson0.times_referenced + 1) ∧
    lesson0.times_referenced ≤ lesson0.times_referenced := by
  refine ⟨⟨(C6_reference_count_only_mutation.2.1 lesson0).2.2.2.2.1,
          (C6_reference_count_only_mutation.2.1 lesson0).2.2.2.2.2⟩, ?_⟩
  exact C6_reference_count_only_mutation.2.2 .clearShortTerm critic2 0 lesson0 lesson0 rfl rfl

/-- Helper: `filterMap` over a list on which the function never fails keeps
the length. -/
theorem filterMap_length_of_isSome {α β : Type} (f : α → Option β) :
    ∀ l : List α, (∀ a ∈ l, (f a).isSome) → (l.filterMap f).length = l.length := by
  intro l
  induction l with
  | nil => intro _; rfl
  | cons a t ih =>
    intro h
    have ha := h a (List.mem_cons_self a t)
    cases hfa : f a with
    | none => rw [hfa] at ha; exact absurd ha (by simp)
    | some b =>
      rw [List.filterMap_cons, hfa]
      simp only [List.length_cons]
      rw [ih (fun x hx => h x (List.mem_cons_of_mem a hx))]

/-- Helper: every selected index addresses a stored lesson. -/
theorem relevantIndices_lt (ctx : Str) (maxL : Nat) (minC : ℚ) (lessons : List Lesson) :
    ∀ i ∈ relevantIndices ctx maxL minC lessons, i < lessons.length := by
  intro i hi
  unfold relevantIndices at hi
  obtain ⟨p, hp, rfl⟩ := List.mem_map.mp hi
  have hps : p ∈ sortDesc (scoredLessons ctx minC lessons) :=
    (List.take_sublist _ _).mem hp
  have hpm := (sortDesc_perm _).mem_iff.mp hps
  obtain ⟨lsn, hget, _, _⟩ := mem_scoredLessons.mp hpm
  exact (List.get?_eq_some.mp hget).1

/-- C3: `get_relevant_lessons` considers only lessons above the confidence
floor, scores each exactly as (2 on substring context match + 0.1 per
shared token) × confidence ÷ (1 + 0.1 × times_referenced), and returns the
top `max_lessons` of them in non-increasing score order (the embedding is
a pure function, so retrieval is deterministic by construction). -/
theorem C3_lesson_scoring :
    ∀ ctx maxL minC (lessons : List Lesson),
      (∀ lsn : Lesson, scoreLesson (pyLower ctx) lsn =
          ((if (pyLower lsn.context) <:+: (pyLower ctx) ∨
               (pyLower ctx) <:+: (pyLower lsn.context) then (2 : ℚ) else 0) +
            (sharedTokens (pyLower lsn.lesson_text) (pyLower ctx) : ℚ) * (1 / 10)) *
            lsn.confidence / (1 + (lsn.times_referenced : ℚ) * (1 / 10))) ∧
      (∀ p ∈ sortDesc (scoredLessons ctx minC lessons),
          ∃ lsn, lessons.get? p.2 = some lsn ∧ minC ≤ lsn.confidence ∧
            p.1 = scoreLesson (pyLower ctx) lsn) ∧
      ((sortDesc (scoredLessons ctx minC lessons)).take maxL).Pairwise scoreGe ∧
      relevantIndices ctx maxL minC lessons =
        ((sortDesc (scoredLessons ctx minC lessons)).take maxL).map Prod.snd ∧
      (relevantIndices ctx maxL minC lessons).length ≤ maxL ∧
      (get_relevant_lessons ctx maxL minC lessons).1.length =
        (relevantIndices ctx maxL minC lessons).length ∧
      (∀ i ∈ relevantIndices ctx maxL minC lessons,
        ∀ j lsnj, j ∉ relevantIndices ctx maxL minC lessons →
          lessons.get? j = some lsnj → ¬ lsnj.confidence < minC →
          ∃ lsni, lessons.get? i = some lsni ∧
            scoreLesson (pyLower ctx) lsnj ≤ scoreLesson (pyLower ctx) lsni) := by
  intro ctx maxL minC lessons
  have hmem : ∀ p ∈ sortDesc (scoredLessons ctx minC lessons),
      ∃ lsn, lessons.get? p.2 = some lsn ∧ minC ≤ lsn.confidence ∧
        p.1 = scoreLesson (pyLower ctx) lsn := by
    intro p hp
    obtain ⟨lsn, hget, hconf, hscore⟩ := mem_scoredLessons.mp ((sortDesc_perm _).mem_iff.mp hp)
    exact ⟨lsn, hget, not_lt.mp hconf, hscore⟩
  refine ⟨?_, hmem, ?_, rfl, ?_, ?_, ?_⟩
  · intro lsn
    by_cases hmatch : (pyLower lsn.context) <:+: (pyLower ctx) ∨
        (pyLower ctx) <:+: (pyLower lsn.context)
    · simp only [scoreLesson, if_pos hmatch]
      ring
    · simp only [scoreLesson, if_neg hmatch]
  · exact (sortDesc_pairwise _).sublist (List.take_sublist _ _)
  · unfold relevantIndices
    rw [List.length_map, List.length_take]
    exact min_le_left _ _
  · by_cases hL : lessons = []
    · subst hL
      have : relevantIndices ctx maxL minC [] = [] := by
        unfold relevantIndices scoredLessons
        simp [sortDesc]
      simp [get_relevant_lessons, this]
    · have hout1 : (get_relevant_lessons ctx maxL minC lessons).1 =
          (relevantIndices ctx maxL minC lessons).filterMap
            (fun i => (get_relevant_lessons ctx maxL minC lessons).2.get? i) := by
        simp [get_relevant_lessons, hL]
      rw [hout1]
      apply filterMap_length_of_isSome
      intro i hi
      have hlt := relevantIndices_lt ctx maxL minC lessons i hi
      have hout2 : (get_relevant_lessons ctx maxL minC lessons).2 =
          lessons.enum.map (fun p =>
            if p.1 ∈ relevantIndices ctx maxL minC lessons then bumpRef p.2 else p.2) := by
        simp [get_relevant_lessons, hL]
      rw [hout2, List.get?_map, List.get?_enum]
      cases hsome : lessons.get? i with
      | none => exact absurd (List.get?_eq_none.mp hsome) (by omega)
      | some lsn => rfl
  · intro i hi j lsnj hj hgetj hconfj
    obtain ⟨pi, hpi, hpi2⟩ := List.mem_map.mp (by
      rw [relevantIndices] at hi
      exact hi)
    have hpis : pi ∈ sortDesc (scoredLessons ctx minC lessons) :=
      (List.take_sublist _ _).mem hpi
    obtain ⟨lsni, hgeti, hconfi, hscorei⟩ := hmem pi hpis
    have hpj : (scoreLesson (pyLower ctx) lsnj, j) ∈ sortDesc (scoredLessons ctx minC lessons) := by
      refine (sortDesc_perm _).mem_iff.mpr ?_
      exact mem_scoredLessons.mpr ⟨lsnj, hgetj, hconfj, rfl⟩
    have hpjdrop : (scoreLesson (pyLower ctx) lsnj, j) ∈
        (sortDesc (scoredLessons ctx minC lessons)).drop maxL := by
      have hsplit := (List.take_append_drop maxL (sortDesc (scoredLessons ctx minC lessons)))
      have := hpj
      rw [← hsplit] at this
      rcases List.mem_append.mp this with htake | hdrop
      · exfalso
        apply hj
        rw [relevantIndices]
        exact List.mem_map.mpr ⟨_, htake, rfl⟩
      · exact hdrop
    have hpair := sortDesc_pairwise (scoredLessons ctx minC lessons)
    rw [← List.take_append_drop maxL (sortDesc (scoredLessons ctx minC lessons))] at hpair
    have hdom := (List.pairwise_append.mp hpair).2.2 pi hpi _ hpjdrop
    refine ⟨lsni, by rw [← hpi2]; exact hgeti, ?_⟩
    have : (scoreLesson (pyLower ctx) lsnj, j).1 ≤ pi.1 := hdom
    rw [hscorei] at this
    exact this

/-- C3 witness: the score of a concrete lesson matches the closed-form
formula at a concrete context. -/
theorem C3_lesson_scoring_witness :
    scoreLesson (pyLower (chars ("death"))) lesson0 =
      ((if (pyLower lesson0.context) <:+: (pyLower (chars ("death"))) ∨
           (pyLower (chars ("death"))) <:+: (pyLower lesson0.context) then (2 : ℚ) else 0) +
        (sharedTokens (pyLower lesson0.lesson_text) (pyLower (chars ("death"))) : ℚ) *
          (1 / 10)) * lesson0.confidence /
        (1 + (lesson0.times_referenced : ℚ) * (1 / 10)) := by
  exact (C3_lesson_scoring (chars ("death")) 3 (1 / 2) []).1 lesson0

/-- Helper: `dropWhile` across an append. -/
theorem dropWhile_append_eq (p : Char → Bool) (xs ys : Str) :
    (xs ++ ys).dropWhile p =
      if (xs.dropWhile p).isEmpty then ys.dropWhile p else xs.dropWhile p ++ ys := by
  induction xs with
  | nil => simp
  | cons x t ih =>
    by_cases hx : p x
    · simp only [List.cons_append, List.dropWhile_cons, hx, if_true, ih]
    · simp [List.dropWhile_cons, hx]

/-- Helper: a list whose head fails the predicate is untouched by
`dropWhile`. -/
theorem dropWhile_eq_self_of_head (p : Char → Bool) (s : Str) (c : Char)
    (hc : s.head? = some c) (hp : p c = false) : s.dropWhile p = s := by
  cases s with
  | nil => exact absurd hc (by simp)
  | cons a t =>
    have : a = c := by injection hc
    subst this
    simp [List.dropWhile_cons, hp]

/-- Helper: a character list ending in `'}'` splits off its last brace. -/
theorem exists_dropLast_of_getLast? (J : Str) (c : Char) (h : J.getLast? = some c) :
    ∃ Ji, J = Ji ++ [c] := by
  have hne : J ≠ [] := by
    intro hJ; rw [hJ] at h; exact absurd h (by simp)
  have hl := List.getLast?_eq_getLast J hne
  rw [hl] at h
  injection h with h
  exact ⟨J.dropLast, by rw [← h]; exact (List.dropLast_append_getLast hne).symm⟩

/-- Helper: Python `strip` on text whose core starts and ends with braces:
only the prose margins are trimmed. -/
theorem pyStrip_sandwich (p1 J p2 : Str)
    (hh : J.head? = some '{') (hl : J.getLast? = some '}') :
    pyStrip (p1 ++ J ++ p2) =
      p1.dropWhile pyWs ++ J ++ (p2.reverse.dropWhile pyWs).reverse := by
  have hws_open : pyWs '{' = false := by decide
  have hws_close : pyWs '}' = false := by decide
  have hJrev : J.reverse.head? = some '}' := by rw [List.head?_reverse]; exact hl
  have step1 : (p1 ++ J ++ p2).dropWhile pyWs = p1.dropWhile pyWs ++ J ++ p2 := by
    rw [List.append_assoc, dropWhile_append_eq]
    have hJp2 : (J ++ p2).dropWhile pyWs = J ++ p2 := by
      apply dropWhile_eq_self_of_head pyWs (J ++ p2) '{' _ hws_open
      cases J with
      | nil => exact absurd hh (by simp)
      | cons a t => simpa using hh
    by_cases he : (p1.dropWhile pyWs).isEmpty
    · rw [if_pos he, hJp2]
      have hnil : p1.dropWhile pyWs = [] := by
        cases hx : p1.dropWhile pyWs with
        | nil => rfl
        | cons a t => rw [hx] at he; exact absurd he (by simp)
      rw [hnil]
      simp
    · rw [if_neg he, List.append_assoc]
  rw [pyStrip, step1]
  have step2 : (p1.dropWhile pyWs ++ J ++ p2).reverse.dropWhile pyWs =
      p2.reverse.dropWhile pyWs ++ (J.reverse ++ (p1.dropWhile pyWs).reverse) := by
    rw [List.reverse_append, List.reverse_append, dropWhile_append_eq]
    have hJrev2 : (J.reverse ++ (p1.dropWhile pyWs).reverse).dropWhile pyWs =
        J.reverse ++ (p1.dropWhile pyWs).reverse := by
      apply dropWhile_eq_self_of_head pyWs _ '}' _ hws_close
      cases hx : J.reverse with
      | nil => rw [hx] at hJrev; exact absurd hJrev (by simp)
      | cons a t =>
        rw [hx] at hJrev
        injection hJrev with h
        simp [h]
    by_cases he : (p2.reverse.dropWhile pyWs).isEmpty
    · rw [if_pos he, hJrev2]
      have hnil : p2.reverse.dropWhile pyWs = [] := by
        cases hx : p2.reverse.dropWhile pyWs with
        | nil => rfl
        | cons a t => rw [hx] at he; exact absurd he (by simp)
      rw [hnil]
      simp
    · rw [if_neg he]
  rw [step2]
  simp [List.reverse_append]

/-- Helper: `idxOf?` finds the head. -/
theorem idxOf?_cons_self (c : Char) (t : Str) : idxOf? c (c :: t) = some 0 := by
  simp [idxOf?]

/-- Helper: `idxOf?` skips a block that does not contain the character. -/
theorem idxOf?_append_of_not_mem {c : Char} {xs : Str} (h : c ∉ xs) (ys : Str) :
    idxOf? c (xs ++ ys) = (idxOf? c ys).map (· + xs.length) := by
  induction xs with
  | nil =>
    simp only [List.nil_append, List.length_nil]
    cases hy : idxOf? c ys <;> simp
  | cons x t ih =>
    have hx : x ≠ c := fun hxc => h (by rw [hxc]; exact List.mem_cons_self c t)
    have ht : c ∉ t := fun hc => h (List.mem_cons_of_mem x hc)
    have hstep : idxOf? c ((x :: t) ++ ys) = (idxOf? c (t ++ ys)).map (· + 1) := by
      rw [List.cons_append]
      show (if x = c then some 0 else (idxOf? c (t ++ ys)).map (· + 1)) = _
      rw [if_neg hx]
    rw [hstep, ih ht]
    cases hy : idxOf? c ys with
    | none => rfl
    | some v =>
      show some (v + t.length + 1) = some (v + (x :: t).length)
      congr 1

/-- Helper: the greedy `\{[\s\S]*\}` regex on brace-free margins extracts
exactly the braced core. -/
theorem extractBraces_sandwich (A J B : Str)
    (hA : '{' ∉ A) (hB : '}' ∉ B)
    (hh : J.head? = some '{') (hl : J.getLast? = some '}') (hJ2 : 2 ≤ J.length) :
    extractBraces (A ++ J ++ B) = some J := by
  obtain ⟨Jt, rfl⟩ : ∃ Jt, J = '{' :: Jt := by
    cases J with
    | nil => exact absurd hh (by simp)
    | cons a t => exact ⟨t, by injection hh with h; rw [h]⟩
  obtain ⟨Ji, hsplit⟩ := exists_dropLast_of_getLast? _ '}' hl
  have hfirst : idxOf? '{' (A ++ ('{' :: Jt) ++ B) = some A.length := by
    rw [List.append_assoc, idxOf?_append_of_not_mem hA]
    rw [show (('{' :: Jt) ++ B) = '{' :: (Jt ++ B) by simp]
    rw [idxOf?_cons_self]
    simp
  have hrev : (A ++ ('{' :: Jt) ++ B).reverse =
      B.reverse ++ ('}' :: (Ji.reverse ++ A.reverse)) := by
    rw [List.append_assoc, List.reverse_append, List.reverse_append, hsplit]
    simp
  have hlast : lastIdxOf? '}' (A ++ ('{' :: Jt) ++ B) =
      some (A.length + ('{' :: Jt).length - 1) := by
    unfold lastIdxOf?
    rw [hrev, idxOf?_append_of_not_mem (fun hc => hB (List.mem_reverse.mp hc)),
      idxOf?_cons_self]
    show some ((A ++ '{' :: Jt ++ B).length - 1 - (0 + B.reverse.length)) =
      some (A.length + ('{' :: Jt).length - 1)
    congr 1
    simp only [List.length_append, List.length_reverse, List.length_cons]
    omega
  unfold extractBraces
  rw [hfirst, hlast]
  show (if A.length < A.length + ('{' :: Jt).length - 1 then
      some (((A ++ '{' :: Jt ++ B).drop A.length).take
        ((A.length + ('{' :: Jt).length - 1) - A.length + 1))
    else none) = some ('{' :: Jt)
  rw [if_pos (by simp only [List.length_cons] at hJ2 ⊢; omega)]
  have hdrop : (A ++ ('{' :: Jt) ++ B).drop A.length = ('{' :: Jt) ++ B := by
    rw [List.append_assoc, List.drop_left]
  rw [hdrop]
  have htake : (A.length + ('{' :: Jt).length - 1) - A.length + 1 = ('{' :: Jt).length := by
    simp only [List.length_cons]
    omega
  rw [htake, List.take_left]

/-- Helper: no closing brace, no match for the greedy fence body. -/
theorem lastGoodBrace_eq_none {v : Str} (h : '}' ∉ v) : lastGoodBrace v = none := by
  induction v with
  | nil => rfl
  | cons c rest ih =>
    have hc : c ≠ '}' := fun hcc => h (by rw [hcc]; exact List.mem_cons_self _ _)
    have hrest : '}' ∉ rest := fun hm => h (List.mem_cons_of_mem c hm)
    rw [lastGoodBrace, ih hrest]
    simp [hc]

/-- Helper: the greedy fence body stops at the last closing brace whose
tail is whitespace plus a closing fence. -/
theorem lastGoodBrace_append_close (xs : Str) {v : Str}
    (hv : '}' ∉ v) (ht : fenceTail v = true) :
    lastGoodBrace (xs ++ '}' :: v) = some xs.length := by
  induction xs with
  | nil =>
    rw [List.nil_append, lastGoodBrace, lastGoodBrace_eq_none hv]
    simp [ht]
  | cons x t ih =>
    rw [List.cons_append, lastGoodBrace, ih]
    rfl

/-- Helper: the fence body `\{.*\}` applied at the payload start extracts
the whole braced payload when only the closing fence follows it. -/
theorem fenceCore_wrapped (Ji : Str) :
    fenceCore ('{' :: (Ji ++ ['}'] ++ chars ("\n```"))) = some ('{' :: (Ji ++ ['}'])) := by
  rw [fenceCore, if_pos rfl]
  rw [List.append_assoc, show ['}'] ++ chars ("\n```") = '}' :: chars ("\n```") from rfl]
  rw [lastGoodBrace_append_close Ji (by decide) (by decide)]
  show some ('{' :: List.take (Ji.length + 1) (Ji ++ '}' :: chars ("\n```"))) =
    some ('{' :: (Ji ++ ['}']))
  rw [show Ji ++ '}' :: chars ("\n```") = (Ji ++ ['}']) ++ chars ("\n```") by simp]
  rw [List.take_left' (by simp)]

/-- Helper: the whole fence regex matched at position 0 of the wrapped
response. -/
theorem fenceAt_wrapped (Jt : Str)
    (hcore : fenceCore ('{' :: (Jt ++ chars ("\n```"))) = some ('{' :: Jt)) :
    fenceAt (chars ("```json\n") ++ ('{' :: Jt) ++ chars ("\n```")) = some ('{' :: Jt) := by
  have h1 : fenceAt (chars ("```json\n") ++ ('{' :: Jt) ++ chars ("\n```")) =
      (match fenceCore ('{' :: (Jt ++ chars ("\n```"))) with
       | some g => some g
       | none =>
         fenceCore (('j' :: 's' :: 'o' :: 'n' :: '\n' :: '{' ::
           (Jt ++ chars ("\n```"))).dropWhile pyWs)) := rfl
  rw [h1, hcore]

/-- Helper: the leftmost search finds the match at position 0. -/
theorem fenceSearch_wrapped (Jt : Str)
    (hat : fenceAt (chars ("```json\n") ++ ('{' :: Jt) ++ chars ("\n```")) =
      some ('{' :: Jt)) :
    fenceSearch (chars ("```json\n") ++ ('{' :: Jt) ++ chars ("\n```")) =
      some ('{' :: Jt) := by
  have h1 : fenceSearch (chars ("```json\n") ++ ('{' :: Jt) ++ chars ("\n```")) =
      (match fenceAt (chars ("```json\n") ++ ('{' :: Jt) ++ chars ("\n```")) with
       | some g => some g
       | none =>
         fenceSearch ('`' :: '`' :: 'j' :: 's' :: 'o' :: 'n' :: '\n' ::
           ('{' :: Jt ++ chars ("\n```")))) := rfl
  rw [h1, hat]

/-- Helper: text that does not open with a backtick is left alone by the
fence-stripping step. -/
theorem stripFence_eq_self {t : Str} (h : t.head? ≠ some '`') : stripFence t = t := by
  cases t with
  | nil => rfl
  | cons c rest =>
    have hc : c ≠ '`' := fun hcc => h (by rw [hcc]; rfl)
    rw [stripFence, if_neg ?_]
    intro hcontra
    rw [show chars ("```") = '`' :: '`' :: '`' :: [] from rfl] at hcontra
    simp only [List.isPrefixOf, Bool.and_eq_true, beq_iff_eq] at hcontra
    exact hc hcontra.1.symm

/-- Helper: fence stripping on the wrapped response extracts the payload. -/
theorem stripFence_wrapped (Jt : Str)
    (hsearch : fenceSearch (chars ("```json\n") ++ ('{' :: Jt) ++ chars ("\n```")) =
      some ('{' :: Jt)) :
    stripFence (chars ("```json\n") ++ ('{' :: Jt) ++ chars ("\n```")) = '{' :: Jt := by
  have h1 : stripFence (chars ("```json\n") ++ ('{' :: Jt) ++ chars ("\n```")) =
      (match fenceSearch (chars ("```json\n") ++ ('{' :: Jt) ++ chars ("\n```")) with
       | some g => g
       | none => chars ("```json\n") ++ ('{' :: Jt) ++ chars ("\n```")) := rfl
  rw [h1, hsearch]

/-- Equivalence of decisions up to the audit field `reasoning_trace`
(which stores the verbatim response and so differs across wrappings). -/
def decisionEquiv (a b : ActionDecision) : Prop :=
  a.visual_observation = b.visual_observation ∧
  a.threat_assessment = b.threat_assessment ∧
  a.threat_details = b.threat_details ∧
  a.strategic_goal = b.strategic_goal ∧
  a.immediate_tactic = b.immediate_tactic ∧
  a.controller_output = b.controller_output ∧
  a.confidence = b.confidence ∧
  a.frame_analysis = b.frame_analysis

/-- Helper: with the same extracted payload, the parse result does not
depend on the surrounding response text, up to `reasoning_trace`. -/
theorem parseWithPayload_equiv (js : Option Str) (r1 r2 : Str) :
    decisionEquiv (parseWithPayload js r1) (parseWithPayload js r2) := by
  cases js with
  | none => exact ⟨rfl, rfl, rfl, rfl, rfl, rfl, rfl, rfl⟩
  | some payload =>
    cases hj : jsonLoads payload with
    | none =>
      simp only [parseWithPayload, hj]
      exact ⟨rfl, rfl, rfl, rfl, rfl, rfl, rfl, rfl⟩
    | some v =>
      cases v with
      | obj fields =>
        cases hd : ActionDecision.from_dict fields with
        | none =>
          simp only [parseWithPayload, hj, hd]
          exact ⟨rfl, rfl, rfl, rfl, rfl, rfl, rfl, rfl⟩
        | some d =>
          simp only [parseWithPayload, hj, hd]
          exact ⟨rfl, rfl, rfl, rfl, rfl, rfl, rfl, rfl⟩
      | null =>
        simp only [parseWithPayload, hj]
        exact ⟨rfl, rfl, rfl, rfl, rfl, rfl, rfl, rfl⟩
      | bool b =>
        simp only [parseWithPayload, hj]
        exact ⟨rfl, rfl, rfl, rfl, rfl, rfl, rfl, rfl⟩
      | num q =>
        simp only [parseWithPayload, hj]
        exact ⟨rfl, rfl, rfl, rfl, rfl, rfl, rfl, rfl⟩
      | str s =>
        simp only [parseWithPayload, hj]
        exact ⟨rfl, rfl, rfl, rfl, rfl, rfl, rfl, rfl⟩
      | arr xs =>
        simp only [parseWithPayload, hj]
        exact ⟨rfl, rfl, rfl, rfl, rfl, rfl, rfl, rfl⟩

/-- Helper: the extraction pipeline on a bare JSON object text. -/
theorem pipeline_raw (J : Str)
    (hh : J.head? = some '{') (hl : J.getLast? = some '}') (hJ2 : 2 ≤ J.length) :
    extractBraces (stripFence (pyStrip J)) = some J := by
  have hstrip : pyStrip J = J := by
    have := pyStrip_sandwich [] J [] hh hl
    simpa using this
  rw [hstrip, stripFence_eq_self (by rw [hh]; decide)]
  have := extractBraces_sandwich [] J [] (by simp) (by simp) hh hl hJ2
  simpa using this

/-- Helper: the extraction pipeline on the fenced response. -/
theorem pipeline_fenced (J : Str)
    (hh : J.head? = some '{') (hl : J.getLast? = some '}') (hJ2 : 2 ≤ J.length) :
    extractBraces (stripFence (pyStrip (chars ("```json\n") ++ J ++ chars ("\n```")))) =
      some J := by
  obtain ⟨Jt, rfl⟩ : ∃ Jt, J = '{' :: Jt := by
    cases J with
    | nil => exact absurd hh (by simp)
    | cons a t => exact ⟨t, by injection hh with h; rw [h]⟩
  have hstrip : pyStrip (chars ("```json\n") ++ ('{' :: Jt) ++ chars ("\n```")) =
      chars ("```json\n") ++ ('{' :: Jt) ++ chars ("\n```") := by
    have := pyStrip_sandwich (chars ("```json\n")) ('{' :: Jt) (chars ("\n```")) hh hl
    rw [this]
    rw [show (chars ("```json\n")).dropWhile pyWs = chars ("```json\n") from by decide]
    rw [show ((chars ("\n```")).reverse.dropWhile pyWs).reverse = chars ("\n```") from by decide]
  rw [hstrip]
  obtain ⟨Ji, hsplit⟩ : ∃ Ji, Jt = Ji ++ ['}'] := by
    obtain ⟨Ji', hs⟩ := exists_dropLast_of_getLast? _ '}' hl
    cases Ji' with
    | nil =>
      exfalso
      have h2 : ('{' : Char) = '}' := by
        have : '{' :: Jt = ['}'] := by simpa using hs
        injection this
      exact absurd h2 (by decide)
    | cons a t =>
      refine ⟨t, ?_⟩
      injection hs
  have hcore : fenceCore ('{' :: (Jt ++ chars ("\n```"))) = some ('{' :: Jt) := by
    rw [hsplit]
    rw [show (Ji ++ ['}']) ++ chars ("\n```") = Ji ++ ['}'] ++ chars ("\n```") from rfl]
    exact fenceCore_wrapped Ji
  rw [stripFence_wrapped Jt (fenceSearch_wrapped Jt (fenceAt_wrapped Jt hcore))]
  have := extractBraces_sandwich [] ('{' :: Jt) [] (by simp) (by simp) hh hl hJ2
  simpa using this

/-- Helper: the extraction pipeline on the prose-wrapped response, for
margins free of braces whose left margin does not start (after the
leading whitespace that `strip` removes) with a backtick.  Interior
backticks are harmless: the fence branch engages only when the stripped
text itself begins with a triple backtick. -/
theorem pipeline_prose (J p1 p2 : Str)
    (hh : J.head? = some '{') (hl : J.getLast? = some '}') (hJ2 : 2 ≤ J.length)
    (hp1o : '{' ∉ p1) (hp1c : '}' ∉ p1)
    (hp1b : (p1.dropWhile pyWs).head? ≠ some '`')
    (hp2o : '{' ∉ p2) (hp2c : '}' ∉ p2) :
    extractBraces (stripFence (pyStrip (p1 ++ J ++ p2))) = some J := by
  have hstrip := pyStrip_sandwich p1 J p2 hh hl
  rw [hstrip]
  have hmemA : ∀ c, c ∈ p1.dropWhile pyWs → c ∈ p1 := by
    intro c hc
    exact (List.dropWhile_sublist pyWs).mem hc
  have hmemB : ∀ c, c ∈ (p2.reverse.dropWhile pyWs).reverse → c ∈ p2 := by
    intro c hc
    rw [List.mem_reverse] at hc
    exact List.mem_reverse.mp ((List.dropWhile_sublist pyWs).mem hc)
  have hnob : (p1.dropWhile pyWs ++ J ++ (p2.reverse.dropWhile pyWs).reverse).head? ≠
      some '`' := by
    cases hx : p1.dropWhile pyWs with
    | nil =>
      cases J with
      | nil => exact absurd hh (by simp)
      | cons a t =>
        intro hcon
        simp only [List.nil_append, List.cons_append, List.head?_cons] at hcon
        injection hcon with hcon
        injection hh with hh
        rw [hh] at hcon
        exact absurd hcon (by decide)
    | cons a t =>
      intro hcon
      simp only [List.cons_append, List.head?_cons] at hcon
      injection hcon with hcon
      apply hp1b
      rw [hx, List.head?_cons, hcon]
  rw [stripFence_eq_self hnob]
  exact extractBraces_sandwich _ J _
    (fun hc => hp1o (hmemA '{' hc)) (fun hc => hp2c (hmemB '}' hc)) hh hl hJ2

/-- C5 (amended): for a JSON object text J (brace-delimited), the parse
yields equivalent decisions — equal in every field except the verbatim
`reasoning_trace` — whether applied to J raw, to J wrapped in a markdown
```` ```json ```` fence, or to J surrounded by prose whose margins contain
no brace characters and whose left margin does not start (after the
leading whitespace that `strip` removes) with a backtick; interior
backticks in the prose are fine.  Prose containing a brace can defeat the
greedy first-`{`-to-last-`}` extraction, in which case the fixed fallback
is returned instead.  Unknown or missing `threat_assessment` values map
to the safe default `none`. -/
theorem C5_parse_tolerance :
    (∀ J p1 p2 : Str,
        J.head? = some '{' → J.getLast? = some '}' → 2 ≤ J.length →
        '{' ∉ p1 → '}' ∉ p1 → (p1.dropWhile pyWs).head? ≠ some '`' →
        '{' ∉ p2 → '}' ∉ p2 →
        decisionEquiv (parse_vlm_response J)
          (parse_vlm_response (chars ("```json\n") ++ J ++ chars ("\n```"))) ∧
        decisionEquiv (parse_vlm_response J)
          (parse_vlm_response (p1 ++ J ++ p2))) ∧
    (∀ fields d, ActionDecision.from_dict fields = some d →
        dget fields (chars ("threat_assessment")) = none →
        d.threat_assessment = .NONE) ∧
    (∀ fields d s, ActionDecision.from_dict fields = some d →
        dget fields (chars ("threat_assessment")) = some (.str s) →
        pyUpper s ∉ [chars ("NONE"), chars ("LOW"), chars ("MEDIUM"),
          chars ("HIGH"), chars ("CRITICAL")] →
        d.threat_assessment = .NONE) := by
  have hfrom : ∀ fields d t, ActionDecision.from_dict fields = some d →
      threatField fields = some t → d.threat_assessment = t := by
    intro fields d t h ht
    unfold ActionDecision.from_dict at h
    rw [ht] at h
    cases hc : controllerField fields with
    | none => rw [hc] at h; exact absurd h (by simp)
    | some controller =>
      rw [hc] at h
      cases hq : confidenceField fields with
      | none => rw [hq] at h; exact absurd h (by simp)
      | some q =>
        rw [hq] at h
        injection h with h
        rw [← h]
  refine ⟨?_, ?_, ?_⟩
  · intro J p1 p2 hh hl hJ2 hp1o hp1c hp1b hp2o hp2c
    constructor
    · unfold parse_vlm_response
      rw [pipeline_raw J hh hl hJ2, pipeline_fenced J hh hl hJ2]
      exact parseWithPayload_equiv (some J) _ _
    · unfold parse_vlm_response
      rw [pipeline_raw J hh hl hJ2,
        pipeline_prose J p1 p2 hh hl hJ2 hp1o hp1c hp1b hp2o hp2c]
      exact parseWithPayload_equiv (some J) _ _
  · intro fields d h hnone
    refine hfrom fields d ThreatLevel.NONE h ?_
    unfold threatField
    rw [hnone]
  · intro fields d s h hstr hunknown
    refine hfrom fields d ThreatLevel.NONE h ?_
    unfold threatField
    rw [hstr]
    show some (threatOfName (pyUpper s)) = some ThreatLevel.NONE
    have hthreat : threatOfName (pyUpper s) = .NONE := by
      simp only [List.mem_cons, List.not_mem_nil, or_false, not_or] at hunknown
      obtain ⟨h1, h2, h3, h4, h5⟩ := hunknown
      unfold threatOfName
      rw [if_neg h1, if_neg h2, if_neg h3, if_neg h4, if_neg h5]
    rw [hthreat]

/-- Helper: a concrete JSON object text. -/
def cexJ : Str := chars ("\x7b\"confidence\": 1\x7d")

/-- Helper: the same object followed by prose that contains a brace. -/
def cexWrapped : Str := chars ("Sure! ") ++ cexJ ++ chars (" hope it helps \x7d")

/-- C5 counterexample: with prose commentary containing a stray closing
brace, the greedy regex grabs from the first `{` to the last `}`, the
decode fails, and the fixed fallback (confidence 0) replaces the real
decision (confidence 1) — so parse tolerance does not hold for arbitrary
surrounding prose. -/
theorem C5_counterexample :
    ¬ decisionEquiv (parse_vlm_response cexJ) (parse_vlm_response cexWrapped) := by
  intro h
  obtain ⟨-, -, -, -, -, -, hconf, -⟩ := h
  have h1 : (parse_vlm_response cexJ).confidence = 1 := by rfl
  have h0 : (parse_vlm_response cexWrapped).confidence = 0 := by rfl
  rw [h1, h0] at hconf
  exact absurd hconf (by norm_num)

/-- C5 witness: a concrete JSON object parses equivalently raw, fenced and
inside brace-free prose, even prose carrying interior backticks. -/
theorem C5_parse_tolerance_witness :
    decisionEquiv (parse_vlm_response cexJ)
      (parse_vlm_response (chars ("```json\n") ++ cexJ ++ chars ("\n```"))) ∧
    decisionEquiv (parse_vlm_response cexJ)
      (parse_vlm_response
        (chars ("See `code` below: ") ++ cexJ ++ chars (" no braces here."))) := by
  exact C5_parse_tolerance.1 cexJ (chars ("See `code` below: "))
    (chars (" no braces here."))
    (by decide) (by decide) (by decide) (by decide) (by decide) (by decide)
    (by decide) (by decide)
